import Mathlib

/-!
# print_format.c — formatted output conversion

A shallow embedding of `examples/uart_example/arduino/print_format.c`
(`output_digit`, `output_2digits`, `calculate_digit`, `_print_format`) and
theorems about it.

Conventions of the embedding.

* A `char` / `unsigned char` is a natural number below 256; `width` and
  `length` (unsigned char) are reduced `% 256` wherever the C code can wrap,
  `decimals` (signed char) is an integer and a conversion to it wraps into
  `[-128, 128)`.
* `long` and `unsigned long` have 32 bits.  `value_t` is the pair of the 32-bit
  pattern shared by `l` / `ul` / `byte[0..3]` (a natural below `2^32`, two's
  complement for `l`, negation wrapping) and the extra accumulator `byte[4]`.
* The template and a string argument are the bytes stored from the pointer
  on; the terminating NUL of the template is appended by `_print_format`.
* An integer argument is the value the caller passed, of the type `va_arg`
  reads it with (`int` or `long`); storing it into `value.l` keeps its low 32
  bits.  A `char` argument is passed as an `int`, so the read
  `va_arg(ap, char)` made under the modifier `B` is undefined.
* The sink `pfn` only ever receives characters; its effect is the list of
  characters it was called with, in call order.  `charsOutputted` is kept
  next to that list as a separate counter, incremented where the C code
  increments it.  The field of the model is the number of increments made; the
  C variable is an `int` (16 bits, as the mask `0xFFFF` on an `int` argument
  shows) and holds that number as long as it is at most `INT_MAX`.  An
  increment beyond is an overflow of a signed integer, which is undefined:
  `returned` is the value of `return charsOutputted;`, and it is `none` then.
* `lower_case` is assigned on every path into the `switch` and only read
  after it, so it is a value computed from the conversion letter.
* Undefined behaviour (reading the template beyond its terminating NUL, an
  argument of the wrong kind or a missing argument, `va_arg(ap, char)`, an
  access outside `store`, a read of an element of `store` that was never
  written) is the result `none`.  The loop `do ... while (value.ul)` is run with a bound of 32
  rounds; it is proved to return within 11 for the radices the code uses.
-/

namespace PrintFormat

/-! ## Sink -/

/-- The observable effect of a call: the characters handed to `pfn`, in order,
and the local counter `charsOutputted`, as the number of increments made so
far (the `int` of the code holds it up to `INT_MAX`, see `returned`). -/
structure Out where
  chars : List Nat
  charsOutputted : Nat
deriving DecidableEq, Repr

/-- One call `output_char (c, p)` of the sink callback. -/
def output_char (c : Nat) (o : Out) : Out :=
  { o with chars := o.chars ++ [c] }

/-- The macro `OUTPUT_CHAR(c, p)`: call the sink, then `charsOutputted++`. -/
def OUTPUT_CHAR (c : Nat) (o : Out) : Out :=
  let o := output_char c o
  { o with charsOutputted := o.charsOutputted + 1 }

/-- The character computed by `output_digit` for the digit value `n`. -/
def digit_char (n : Nat) (lower_case : Bool) : Nat :=
  let c := (n + 48) % 256
  if c > 57 then
    let c := (c + 7) % 256
    if lower_case then (c + 32) % 256 else c
  else c

/-- The function `output_digit`: one sink call, the counter is left alone. -/
def output_digit (n : Nat) (lower_case : Bool) (o : Out) : Out :=
  output_char (digit_char n lower_case) o

/-- The function `output_2digits`: high nibble, then low nibble. -/
def output_2digits (b : Nat) (lower_case : Bool) (o : Out) : Out :=
  let o := output_digit (b >>> 4) lower_case o
  output_digit (b &&& 0x0F) lower_case o

/-- The macro `OUTPUT_2DIGITS(B)`. -/
def OUTPUT_2DIGITS (b : Nat) (lower_case : Bool) (o : Out) : Out :=
  let o := output_2digits b lower_case o
  { o with charsOutputted := o.charsOutputted + 2 }

/-! ## Digit extraction -/

/-- The union `value_t`: `ul` is the 32-bit pattern of `l` / `ul` /
`byte[0..3]`, `byte4` is `byte[4]`. -/
structure value_t where
  ul : Nat
  byte4 : Nat
deriving DecidableEq, Repr

/-- The body of the `do ... while (--i)` loop of `calculate_digit`, on the
locals `ul` and `*pb4`. -/
def calculate_digit_body (radix : Nat) (s : Nat × Nat) : Nat × Nat :=
  let ul := s.1
  let pb4 := s.2
  let pb4 := ((pb4 <<< 1) ||| ((ul >>> 31) &&& 0x01)) % 256
  let ul := (ul <<< 1) % 2 ^ 32
  if radix ≤ pb4 then (ul ||| 1, (pb4 + 256 - radix) % 256) else (ul, pb4)

/-- The loop `do body while (--i)` entered with a counter `i + 1`. -/
def calculate_digit_loop (radix : Nat) : Nat → Nat × Nat → Nat × Nat
  | 0, s => calculate_digit_body radix s
  | i + 1, s => calculate_digit_loop radix i (calculate_digit_body radix s)

/-- The function `calculate_digit`: 32 rounds of shift, compare, subtract. -/
def calculate_digit (value : value_t) (radix : Nat) : value_t :=
  let r := calculate_digit_loop radix 31 (value.ul, value.byte4)
  { ul := r.1, byte4 := r.2 }

/-! ## Conversion state and arguments -/

/-- The per-conversion locals of `_print_format`, reset at every `%`. -/
structure Conv where
  left_justify : Bool
  zero_padding : Bool
  prefix_sign : Bool
  prefix_space : Bool
  signed_argument : Bool
  char_argument : Bool
  long_argument : Bool
  float_argument : Bool
  radix : Nat
  width : Nat
  decimals : Int
deriving DecidableEq, Repr

/-- The assignments made when a `%` is read. -/
def Conv.init : Conv :=
  { left_justify := false, zero_padding := false, prefix_sign := false,
    prefix_space := false, signed_argument := false, char_argument := false,
    long_argument := false, float_argument := false, radix := 0, width := 0,
    decimals := -1 }

/-- One variadic argument as `va_arg` sees it: an integer (read as `int` or
`long`, whose value it is), a pointer to a NUL-terminated string (the
bytes stored from the pointer on; a missing 0 means the terminator follows the
list), an address, or a floating argument (its value; no conversion reads
one, `case 'F'` has its `va_arg` commented out). -/
inductive Arg where
  | int (v : Int)
  | str (s : List Nat)
  | ptr (a : Nat)
  | flt (x : Rat)
deriving DecidableEq, Repr

/-- The 32-bit two's complement pattern stored by `value.l = x`. -/
def toU32 (x : Int) : Nat := (x % 4294967296).toNat

/-- Conversion of an `int` to `char`, as a byte. -/
def toByte (x : Int) : Nat := (x % 256).toNat

/-- Conversion to `signed char` (wrapping). -/
def toSChar (x : Int) : Int := (x + 128) % 256 - 128

/-- The macro `isdigit`. -/
def isdigit (c : Nat) : Bool := decide (48 ≤ c) && decide (c ≤ 57)

/-- The macro `islower`. -/
def islower (c : Nat) : Bool := decide (97 ≤ c) && decide (c ≤ 122)

/-- The library function `strlen` on the bytes stored from the pointer on. -/
def strlen : List Nat → Nat
  | [] => 0
  | c :: s => if c = 0 then 0 else strlen s + 1

/-! ## The numeric path -/

/-- Read of `store[i]`; `none` outside the 6 elements or when the element
holds no written value. -/
def store_read (store : Int → Option Nat) (i : Int) : Option Nat :=
  if 0 ≤ i ∧ i < 6 then store i else none

/-- Write of `store[i] = b`; `none` outside the 6 elements. -/
def store_write (store : Int → Option Nat) (i : Int) (b : Nat) :
    Option (Int → Option Nat) :=
  if 0 ≤ i ∧ i < 6 then some (fun j => if j = i then some b else store j) else none

/-- The locals shared by the packing and unpacking loops: `value.ul`,
`store`, `pstore` (as an index into `store`), `length` and `lsd`. -/
structure Digits where
  ul : Nat
  store : Int → Option Nat
  pstore : Int
  length : Nat
  lsd : Bool

/-- The state at `length=0; lsd = 1;` with `value.ul = ul`: `store` is
uninitialised and `pstore = &store[5]`. -/
def Digits.start (ul : Nat) : Digits :=
  { ul := ul, store := fun _ => none, pstore := 5, length := 0, lsd := true }

/-- The body of the loop `do ... while (value.ul)`: clear `byte[4]`, call
`calculate_digit`, pack the digit into `store`. -/
def digit_body (radix : Nat) (d : Digits) : Option Digits :=
  let value := calculate_digit { ul := d.ul, byte4 := 0 } radix
  let packed : Option ((Int → Option Nat) × Int) :=
    if !d.lsd then
      match store_read d.store d.pstore with
      | some x =>
        match store_write d.store d.pstore
            (((value.byte4 <<< 4) ||| (value.byte4 >>> 4) ||| x) % 256) with
        | some st => some (st, d.pstore - 1)
        | none => none
      | none => none
    else
      match store_write d.store d.pstore value.byte4 with
      | some st => some (st, d.pstore)
      | none => none
  match packed with
  | some (st, ps) =>
    some { ul := value.ul, store := st, pstore := ps,
           length := (d.length + 1) % 256, lsd := !d.lsd }
  | none => none

/-- The loop `do ... while (value.ul)`, with a bound on the number of rounds
(`none` when the bound is used up). -/
def digit_loop (radix : Nat) : Nat → Digits → Option Digits
  | 0, _ => none
  | fuel + 1, d =>
    match digit_body radix d with
    | none => none
    | some d => if d.ul ≠ 0 then digit_loop radix fuel d else some d

/-- The loop `while (width > (unsigned char)(length+1)) { OUTPUT_CHAR(' ');
width--; }`; returns the final `width`. -/
def lead_spaces (length : Nat) : Nat → Out → Nat × Out
  | 0, o => (0, o)
  | w + 1, o =>
    if w + 1 > (length + 1) % 256 then lead_spaces length w (OUTPUT_CHAR 32 o)
    else (w + 1, o)

/-- The loop `while (width-- > length) OUTPUT_CHAR(zero_padding ? '0' : ' ')`;
returns the final `width` (255 after the decrement of 0). -/
def pad_loop (zero_padding : Bool) (length : Nat) : Nat → Out → Nat × Out
  | 0, o => (255, o)
  | w + 1, o =>
    if w + 1 > length then
      pad_loop zero_padding length w (OUTPUT_CHAR (if zero_padding then 48 else 32) o)
    else (w, o)

/-- The loops `while (width-- != 0) OUTPUT_CHAR(' ')` and
`while (width-- > 0) OUTPUT_CHAR(' ')`; returns the final `width`. -/
def space_loop : Nat → Out → Nat × Out
  | 0, o => (255, o)
  | w + 1, o => space_loop w (OUTPUT_CHAR 32 o)

/-- The loop `while (length--)` that unpacks `store` and outputs the digits. -/
def output_digits (lower_case : Bool) : Nat → Digits → Out → Option Out
  | 0, _, o => some o
  | length + 1, d, o =>
    let lsd := !d.lsd
    let r : Option (Int × Nat) :=
      if !lsd then
        match store_read d.store (d.pstore + 1) with
        | some x => some (d.pstore + 1, x >>> 4)
        | none => none
      else
        match store_read d.store d.pstore with
        | some x => some (d.pstore, x &&& 0x0F)
        | none => none
    match r with
    | none => none
    | some (ps, b4) =>
      let o := output_digit b4 lower_case o
      let o := { o with charsOutputted := o.charsOutputted + 1 }
      output_digits lower_case length { d with pstore := ps, lsd := lsd, length := length } o

/-- The value fetched into `value.l` (and masked) for an integer conversion.
With `char_argument` the code reads `va_arg(ap, char)`: the argument was
passed as an `int`, the read is undefined and gives no value. -/
def fetch (cv : Conv) (a : Int) : Option Nat :=
  if cv.char_argument then none
  else if cv.long_argument then some (toU32 a)
  else
    if !cv.signed_argument then some (toU32 a &&& 0xFFFF) else some (toU32 a)

/-- The block `if ( signed_argument ) ...`: the magnitude left in `value` and
the new `signed_argument` (now: the value was negative). -/
def negate (signed_argument : Bool) (l : Nat) : Nat × Bool :=
  if signed_argument then
    if l ≥ 2147483648 then ((4294967296 - l) % 4294967296, true) else (l, false)
  else (l, false)

/-- The sign character and the `width--` that goes with it. -/
def sign_step (cv : Conv) (signed_argument : Bool) (length width : Nat) (o : Out) :
    Nat × Out :=
  if signed_argument then ((width + 255) % 256, OUTPUT_CHAR 45 o)
  else if length ≠ 0 then
    if cv.prefix_sign then ((width + 255) % 256, OUTPUT_CHAR 43 o)
    else if cv.prefix_space then ((width + 255) % 256, OUTPUT_CHAR 32 o)
    else (width, o)
  else (width, o)

/-- The block `/* prepend spaces if needed */` before the sign. -/
def lead_step (cv : Conv) (length width : Nat) (o : Out) : Nat × Out :=
  if !cv.zero_padding && !cv.left_justify then lead_spaces length width o
  else (width, o)

/-- The block `/* prepend zeroes/spaces if needed */` after the sign. -/
def pad_step (cv : Conv) (length width : Nat) (o : Out) : Nat × Out :=
  if !cv.left_justify then pad_loop cv.zero_padding length width o
  else (if width > length then width - length else 0, o)

/-- The block `if (left_justify) ...` after the digits. -/
def trail_step (cv : Conv) (width : Nat) (o : Out) : Out :=
  if cv.left_justify then (space_loop width o).2 else o

/-- The block `else if (radix != 0) { ... }`: output of an integral argument
with radix `cv.radix`. -/
def print_integer (cv : Conv) (lower_case : Bool) (ap : List Arg) (o : Out) :
    Option (List Arg × Out) :=
  match ap with
  | Arg.int a :: ap =>
    match fetch cv a with
    | none => none
    | some l =>
      let neg := negate cv.signed_argument l
      match digit_loop cv.radix 32 (Digits.start neg.1) with
      | none => none
      | some d =>
        let width := if cv.width = 0 then 1 else cv.width
        let s1 := lead_step cv d.length width o
        let s2 := sign_step cv neg.2 d.length s1.1 s1.2
        let s3 := pad_step cv d.length s2.1 s2.2
        match output_digits lower_case d.length d s3.2 with
        | none => none
        | some o => some (ap, trail_step cv s3.1 o)
  | _ => none

/-! ## Strings, pointers and the float placeholder -/

/-- The loop `while ((c = *PTR) && (decimals-- > 0)) { OUTPUT_CHAR(c); PTR++; }`
(the decrement is only reached from a positive `decimals`, so it cannot wrap
inside the loop). -/
def string_loop : List Nat → Int → Out → Out
  | [], _, o => o
  | c :: s, decimals, o =>
    if c = 0 then o
    else if decimals > 0 then string_loop s (decimals - 1) (OUTPUT_CHAR c o)
    else o

/-- The body of `case 'S'` for the string `s` (`width -= length` is only
reached with `length < width`). -/
def print_string (cv : Conv) (s : List Nat) (o : Out) : Out :=
  let length := strlen s % 256
  let decimals := if cv.decimals = -1 then toSChar length else cv.decimals
  let s1 := if !cv.left_justify && decide (length < cv.width) then
      space_loop (cv.width - length) o
    else (cv.width, o)
  let o := string_loop s decimals s1.2
  if cv.left_justify && decide (length < s1.1) then
    (space_loop (s1.1 - length) o).2
  else o

/-- The body of `case 'P'` for the address `a`: `byte[3]` down to `byte[0]`
of a 4-byte little-endian pointer. -/
def print_pointer (lower_case : Bool) (a : Nat) (o : Out) : Out :=
  let ul := a % 4294967296
  let o := OUTPUT_CHAR 48 o
  let o := OUTPUT_CHAR 120 o
  let o := OUTPUT_2DIGITS ((ul >>> 24) &&& 0xFF) lower_case o
  let o := OUTPUT_2DIGITS ((ul >>> 16) &&& 0xFF) lower_case o
  let o := OUTPUT_2DIGITS ((ul >>> 8) &&& 0xFF) lower_case o
  OUTPUT_2DIGITS (ul &&& 0xFF) lower_case o

/-- The loop `while (c=*PTR++) OUTPUT_CHAR (c, p)` over a literal. -/
def output_literal : List Nat → Out → Out
  | [], o => o
  | c :: s, o => if c = 0 then o else output_literal s (OUTPUT_CHAR c o)

/-- The code after the `switch`: the float placeholder, or the integer block
when `radix != 0`, or nothing. -/
def after_switch (cv : Conv) (lower_case : Bool) (ap : List Arg) (o : Out) :
    Option (List Arg × Out) :=
  if cv.float_argument then some (ap, output_literal [60, 37, 102, 62] o)
  else if cv.radix ≠ 0 then print_integer cv lower_case ap o
  else some (ap, o)

/-! ## The parser -/

/-- A `break` out of the `switch`: run the code after it and go back to the
main loop (`none` in the first component: no conversion is open). -/
def finish (cv : Conv) (lower_case : Bool) (ap : List Arg) (o : Out) :
    Option (Option Conv × List Arg × Out) :=
  match after_switch cv lower_case ap o with
  | some r => some (none, r.1, r.2)
  | none => none

/-- The `switch( c )` on the case-folded character `c`, with the code after
it for the cases that `break`.  In `case 'C'` the read `va_arg(ap, char)` made
with `char_argument` is undefined. -/
def switch_c (c : Nat) (lower_case : Bool) (cv : Conv) (ap : List Arg) (o : Out) :
    Option (Option Conv × List Arg × Out) :=
  if c = 45 then some (some { cv with left_justify := true }, ap, o)
  else if c = 43 then some (some { cv with prefix_sign := true }, ap, o)
  else if c = 32 then some (some { cv with prefix_space := true }, ap, o)
  else if c = 66 then some (some { cv with char_argument := true }, ap, o)
  else if c = 72 ∨ c = 74 ∨ c = 84 ∨ c = 90 then some (some cv, ap, o)
  else if c = 76 then some (some { cv with long_argument := true }, ap, o)
  else if c = 67 then
    if cv.char_argument then none
    else
      match ap with
      | Arg.int a :: ap => finish cv lower_case ap (OUTPUT_CHAR (toByte a) o)
      | _ => none
  else if c = 83 then
    match ap with
    | Arg.str s :: ap => finish cv lower_case ap (print_string cv s o)
    | _ => none
  else if c = 80 then
    match ap with
    | Arg.ptr a :: ap => finish cv lower_case ap (print_pointer lower_case a o)
    | _ => none
  else if c = 68 ∨ c = 73 then
    finish { cv with signed_argument := true, radix := 10 } lower_case ap o
  else if c = 79 then finish { cv with radix := 8 } lower_case ap o
  else if c = 85 then finish { cv with radix := 10 } lower_case ap o
  else if c = 88 then finish { cv with radix := 16 } lower_case ap o
  else if c = 70 then finish { cv with float_argument := true } lower_case ap o
  else finish cv lower_case ap (OUTPUT_CHAR c o)

/-- The code from the label `get_conversion_spec` on, for the character `c`
just read: the result is the conversion state to continue with at the label
(`some`), or `none` when control is back in the main loop, with the argument
cursor and the sink. -/
def get_conversion_spec (c : Nat) (cv : Conv) (ap : List Arg) (o : Out) :
    Option (Option Conv × List Arg × Out) :=
  if c = 37 then some (none, ap, OUTPUT_CHAR c o)
  else if isdigit c then
    if cv.decimals = -1 then
      some (some { cv with
              width := (10 * cv.width + c - 48) % 256,
              zero_padding :=
                if (10 * cv.width + c - 48) % 256 = 0 then true else cv.zero_padding },
            ap, o)
    else
      some (some { cv with decimals := toSChar (10 * cv.decimals + c - 48) }, ap, o)
  else if c = 46 then
    some (some (if cv.decimals = -1 then { cv with decimals := 0 } else cv), ap, o)
  else switch_c (if islower c then c &&& 0xDF else c) (islower c) cv ap o

/-- The main loop `while( c=*format++ )` over the bytes stored from `format`
on; the second argument is `some cv` when control is at the label
`get_conversion_spec` with conversion state `cv`.  Running off the list is a
read beyond the stored bytes. -/
def format_loop : List Nat → Option Conv → List Arg → Out → Option (List Arg × Out)
  | [], _, _, _ => none
  | c :: format, none, ap, o =>
    if c = 0 then some (ap, o)
    else if c = 37 then format_loop format (some Conv.init) ap o
    else format_loop format none ap (OUTPUT_CHAR c o)
  | c :: format, some cv, ap, o =>
    match get_conversion_spec c cv ap o with
    | none => none
    | some (cv, ap, o) => format_loop format cv ap o

/-- The function `_print_format` on the template `format` (the bytes before
its terminating NUL) and the arguments `ap`: the arguments left over, the
characters given to the sink and the returned `charsOutputted`. -/
def _print_format (format : List Nat) (ap : List Arg) : Option (List Arg × Out) :=
  format_loop (format ++ [0]) none ap { chars := [], charsOutputted := 0 }

/-- The largest value of the counter `int charsOutputted`, for the `int` of 16
bits that the code assumes (`value.l &= 0xFFFF` on an `int` argument). -/
def INT_MAX : Nat := 32767

/-- The value of `return charsOutputted;`: the counter as an `int`.  There is
none when more than `INT_MAX` increments were made, since the increment of an
`int` that holds `INT_MAX` is undefined. -/
def returned (o : Out) : Option Int :=
  if o.charsOutputted ≤ INT_MAX then some (o.charsOutputted : Int) else none

/-- The characters of a string literal, as bytes. -/
def bytes (s : String) : List Nat := s.toList.map Char.toNat

/-! ## Specification-side definitions -/

/-- The standard representation of `v` in base `r`: most significant digit
first, no leading zero, the single digit 0 for `v = 0`. -/
def base_repr (r v : Nat) : List Nat :=
  if v = 0 then [0] else (Nat.digits r v).reverse

/-- Reading a digit sequence, most significant digit first, in base `r`. -/
def parse_digits (r : Nat) (ds : List Nat) : Nat :=
  ds.foldl (fun acc d => acc * r + d) 0

/-- The value of a digit character: `'0'`-`'9'`, `'A'`-`'F'`, `'a'`-`'f'`. -/
def digit_value (c : Nat) : Nat :=
  if 48 ≤ c ∧ c ≤ 57 then c - 48
  else if 65 ≤ c ∧ c ≤ 70 then c - 55
  else if 97 ≤ c ∧ c ≤ 102 then c - 87
  else 0

/-- The sink after the characters `cs` have been delivered and counted. -/
def emit (cs : List Nat) (o : Out) : Out :=
  { chars := o.chars ++ cs, charsOutputted := o.charsOutputted + cs.length }

/-- The sign character of a numeric field: `-` for a negative value, else
`+` with the `+` flag, else a space with the space flag, else none. -/
def sign_text (cv : Conv) (negative : Bool) : List Nat :=
  if negative then [45]
  else if cv.prefix_sign then [43]
  else if cv.prefix_space then [32]
  else []

/-- The digits of a numeric field: the standard representation of the
magnitude in the radix of the conversion, as characters. -/
def digits_text (cv : Conv) (lower_case : Bool) (magnitude : Nat) : List Nat :=
  (base_repr cv.radix magnitude).map fun x => digit_char x lower_case

/-- The text of a numeric field of magnitude `magnitude`: spaces, sign,
digits when neither `-` nor zero padding is asked for; sign, zeros, digits with
zero padding; sign, digits, spaces when left-justified.  The padding makes
the field as long as the width (1 when unset), or adds nothing when sign and
digits already fill it. -/
def field_text (cv : Conv) (lower_case negative : Bool) (magnitude : Nat) : List Nat :=
  let digits := digits_text cv lower_case magnitude
  let sign := sign_text cv negative
  let fill := (if cv.width = 0 then 1 else cv.width) - sign.length - digits.length
  if cv.left_justify then sign ++ digits ++ List.replicate fill 32
  else if cv.zero_padding then sign ++ List.replicate fill 48 ++ digits
  else List.replicate fill 32 ++ sign ++ digits

/-- The decimal literal of `n` as it is written in a template. -/
def decimal_literal (n : Nat) : List Nat := (Nat.toDigits 10 n).map Char.toNat

/-- The `width` and `zero_padding` left by the parser after the digit
characters `ds` of a width field. -/
def width_after : Nat × Bool → List Nat → Nat × Bool
  | s, [] => s
  | s, c :: ds =>
    width_after ((10 * s.1 + c - 48) % 256,
      if (10 * s.1 + c - 48) % 256 = 0 then true else s.2) ds

/-- The `decimals` left by the parser after the digit characters `ds` of a
precision field. -/
def decimals_after : Int → List Nat → Int
  | s, [] => s
  | s, c :: ds => decimals_after (toSChar (10 * s + c - 48)) ds

/-- The precision field `ds` never passes through the value -1 that stands
for an unset precision. -/
def decimals_set : Int → List Nat → Bool
  | _, [] => true
  | s, c :: ds => decide (s ≠ -1) && decimals_set (toSChar (10 * s + c - 48)) ds

/-- The flag characters `-`, `+`, space and the length modifiers `B`, `H`,
`J`, `T`, `Z`, `L` in either case. -/
def is_flag (c : Nat) : Bool :=
  c ∈ [45, 43, 32, 66, 98, 72, 104, 74, 106, 84, 116, 90, 122, 76, 108]

/-- The effect of one flag or length modifier on the conversion state. -/
def flag_step (cv : Conv) (c : Nat) : Conv :=
  if c = 45 then { cv with left_justify := true }
  else if c = 43 then { cv with prefix_sign := true }
  else if c = 32 then { cv with prefix_space := true }
  else if c = 66 ∨ c = 98 then { cv with char_argument := true }
  else if c = 76 ∨ c = 108 then { cv with long_argument := true }
  else cv

/-- The conversion letters `D`, `I`, `U`, `O`, `X` in either case. -/
def is_integer_conversion (c : Nat) : Bool :=
  c ∈ [68, 100, 73, 105, 85, 117, 79, 111, 88, 120]

/-- The radix of an integer conversion letter. -/
def conversion_radix (c : Nat) : Nat :=
  if c = 79 ∨ c = 111 then 8 else if c = 88 ∨ c = 120 then 16 else 10

/-- Whether an integer conversion letter is signed (`D`, `I`). -/
def conversion_signed (c : Nat) : Bool :=
  c ∈ [68, 100, 73, 105]

/-- The conversion state with which the integer block is entered for a
specification made of the flags `fl`, an optional `0`, the width `w` (0 when
absent) and the integer conversion letter `c`. -/
def integer_conv (fl : List Nat) (zp : Bool) (w c : Nat) : Conv :=
  { fl.foldl flag_step Conv.init with
    zero_padding := zp, width := w,
    signed_argument := conversion_signed c, radix := conversion_radix c }

/-- The characters of a conversion specification: `%`, the flags, an
optional `0`, the width literal (absent for 0) and the conversion letter. -/
def integer_template (fl : List Nat) (zp : Bool) (w c : Nat) : List Nat :=
  37 :: (fl ++ ((if zp then [48] else []) ++
    ((if w = 0 then [] else decimal_literal w) ++ [c])))

/-- The decimal digits of `n` as characters. -/
def decimal_text (n : Nat) : List Nat := (base_repr 10 n).map fun d => d + 48

/-- The hexadecimal digit `d` as an upper case character. -/
def hex_upper (d : Nat) : Nat := if d < 10 then 48 + d else 55 + d

/-- The hexadecimal digit `d` as a lower case character. -/
def hex_lower (d : Nat) : Nat := if d < 10 then 48 + d else 87 + d

/-- The layout of a numeric field in five parts: spaces, the sign, zeros,
the digits, spaces.  `fill` is what is missing to the width (1 when unset); it
goes to the left as spaces by default, between sign and digits as zeros with
zero padding, and to the right as spaces when left-justified. -/
def field_layout (left zero : Bool) (w : Nat) (sign digits : List Nat) : List Nat :=
  List.replicate
      (if left = true ∨ zero = true then 0
       else (if w = 0 then 1 else w) - sign.length - digits.length) 32 ++
    sign ++
    List.replicate
      (if left = false ∧ zero = true then
        (if w = 0 then 1 else w) - sign.length - digits.length
       else 0) 48 ++
    digits ++
    List.replicate
      (if left = true then (if w = 0 then 1 else w) - sign.length - digits.length
       else 0) 32

/-- The 32-bit pattern left in `value` by an argument read as `long` (all 32
bits) or as `int` (the low 16 bits for an unsigned conversion). -/
def masked (cv : Conv) (a : Int) : Nat :=
  if cv.long_argument then toU32 a
  else if !cv.signed_argument then toU32 a &&& 0xFFFF else toU32 a

/-- The characters of a string specification: `%`, the flags, the width
literal (absent for 0), an optional `.` with the precision literal, and the
letter `S`. -/
def string_template (fl : List Nat) (w : Nat) (p : Option Nat) : List Nat :=
  37 :: (fl ++ ((if w = 0 then [] else decimal_literal w) ++
    ((match p with
      | none => []
      | some n => 46 :: decimal_literal n) ++ [83])))

/-- The conversion state with which `case 'S'` is entered for the flags `fl`,
the width `w` (0 when absent) and the precision `p`. -/
def string_conv (fl : List Nat) (w : Nat) (p : Option Nat) : Conv :=
  { fl.foldl flag_step Conv.init with
    width := w,
    decimals := match p with
      | none => -1
      | some n => (n : Int) }

/-- A direct divide/modulo step, as the specification words it: the
quotient becomes the new 32-bit value, the remainder is the digit left in the
accumulator. -/
def divide_step (v radix : Nat) : value_t :=
  { ul := v / radix, byte4 := v % radix }

/-- The characters that may stand between `%` and the conversion letter:
flags and length modifiers, digits and `.`. -/
def is_spec_char (c : Nat) : Bool :=
  is_flag c || isdigit c || decide (c = 46)

/-- The 8 hexadecimal digits of `a`, padded with zeros to 8 places, most
significant first. -/
def hex8_digits (a : Nat) : List Nat :=
  [a / 268435456 % 16, a / 16777216 % 16, a / 1048576 % 16, a / 65536 % 16,
   a / 4096 % 16, a / 256 % 16, a / 16 % 16, a % 16]

/-- The sink `r` is the sink `o` after some more characters were delivered
and counted. -/
def Extends (o r : Out) : Prop := ∃ cs, r = emit cs o

/-- What the unpacking loop will read from `store`, starting at index `p` with
the flag `lsd`: the digits `ds`, most recently packed first. -/
def Unpacks (store : Int → Option Nat) : Int → Bool → List Nat → Prop
  | _, _, [] => True
  | p, true, d :: ds =>
    (0 ≤ p + 1 ∧ p + 1 < 6) ∧ (store (p + 1)).map (· >>> 4) = some d ∧
      Unpacks store (p + 1) false ds
  | p, false, d :: ds =>
    (0 ≤ p ∧ p < 6) ∧ (store p).map (· &&& 0x0F) = some d ∧ Unpacks store p true ds

/-- The state of the packing loop after the digits `ds` (most recent first)
have been packed. -/
def Packed (d : Digits) (ds : List Nat) : Prop :=
  Unpacks d.store d.pstore d.lsd ds ∧
  (d.lsd = false → ∃ y, y < 16 ∧ d.store d.pstore = some y ∧ ds.head? = some y) ∧
  2 * (5 - d.pstore) + (if d.lsd then 0 else 1) = (ds.length : Int) ∧
  d.length = ds.length

/-! ## `calculate_digit` is one division step -/

/-- The loop body in arithmetic form, for a 32-bit `ul` and an accumulator
below 128. -/
theorem calculate_digit_body_eq (radix ul pb4 : Nat) (hul : ul < 4294967296)
    (hpb : pb4 < 128) :
    calculate_digit_body radix (ul, pb4) =
      if radix ≤ 2 * pb4 + ul / 2147483648 then
        (2 * ul % 4294967296 + 1, 2 * pb4 + ul / 2147483648 - radix)
      else (2 * ul % 4294967296, 2 * pb4 + ul / 2147483648) := by
  have hb : ul / 2147483648 < 2 := by omega
  have h1 : (ul >>> 31) &&& 0x01 = ul / 2147483648 := by
    rw [Nat.and_one_is_mod, Nat.shiftRight_eq_div_pow]
    norm_num
    omega
  have h2 : (pb4 <<< 1) ||| (ul / 2147483648) = 2 * pb4 + ul / 2147483648 := by
    have := Nat.mul_add_lt_is_or (i := 1) (b := ul / 2147483648) (by omega) pb4
    rw [Nat.shiftLeft_eq]
    simp only [pow_one] at this ⊢
    rw [Nat.mul_comm pb4 2]
    exact this.symm
  have h3 : (ul <<< 1) % 2 ^ 32 = 2 * ul % 4294967296 := by
    rw [Nat.shiftLeft_eq]
    norm_num
    omega
  have h4 : (2 * ul % 4294967296) ||| 1 = 2 * ul % 4294967296 + 1 := by
    have e : 2 * ul % 4294967296 = 2 ^ 1 * (ul % 2147483648) := by omega
    rw [e]
    exact (Nat.mul_add_lt_is_or (i := 1) (b := 1) (by omega) _).symm
  unfold calculate_digit_body
  simp only [h1, h2, h3]
  have h5 : (2 * pb4 + ul / 2147483648) % 256 = 2 * pb4 + ul / 2147483648 := by omega
  rw [h5]
  by_cases hc : radix ≤ 2 * pb4 + ul / 2147483648
  · simp only [hc, if_true, h4]
    congr 1
    omega
  · simp only [hc, if_false]

/-- One round of the loop keeps the long-division invariant: after `k`
rounds the low `k` bits of `ul` hold the quotient `q` of the `k` leading bits of
`v` by `radix`, the accumulator their remainder, and the upper bits of `ul`
the bits `A` of `v` not yet consumed. -/
theorem calculate_digit_body_inv (v radix k ul acc : Nat) (hr : radix ≤ 128)
    (hk : k < 32)
    (h : ∃ A q, ul = A * 2 ^ k + q ∧ q < 2 ^ k ∧ A < 2 ^ (32 - k) ∧ acc < radix ∧
      (q * radix + acc) * 2 ^ (32 - k) + A = v) :
    ∃ A q, (calculate_digit_body radix (ul, acc)).1 = A * 2 ^ (k + 1) + q ∧
      q < 2 ^ (k + 1) ∧ A < 2 ^ (32 - (k + 1)) ∧
      (calculate_digit_body radix (ul, acc)).2 < radix ∧
      (q * radix + (calculate_digit_body radix (ul, acc)).2) * 2 ^ (32 - (k + 1)) + A
        = v := by
  obtain ⟨A, q, hul, hq, hA, hacc, hv⟩ := h
  have hPQ : 2 ^ k * 2 ^ (31 - k) = 2147483648 := by
    rw [← pow_add, show k + (31 - k) = 31 by omega]
    norm_num
  have h32 : 2 ^ (32 - k) = 2 * 2 ^ (31 - k) := by
    rw [show 32 - k = (31 - k) + 1 by omega, pow_succ]
    ring
  have h31 : 32 - (k + 1) = 31 - k := by omega
  have hP1 : 2 ^ (k + 1) = 2 * 2 ^ k := by rw [pow_succ]; ring
  rw [h31, hP1]
  rw [h32] at hA hv
  generalize hP : 2 ^ k = P at *
  generalize hQ : 2 ^ (31 - k) = Q at *
  have hQpos : 0 < Q := by
    rcases Nat.eq_zero_or_pos Q with h0 | h0
    · rw [h0] at hPQ; omega
    · exact h0
  have hdm : Q * (A / Q) + A % Q = A := Nat.div_add_mod A Q
  have hb : A / Q < 2 := (Nat.div_lt_iff_lt_mul hQpos).2 hA
  have hA' : A % Q < Q := Nat.mod_lt _ hQpos
  generalize hbdef : A / Q = b at *
  generalize hA'def : A % Q = A' at *
  have hprod : (A' + 1) * P ≤ 2147483648 := by
    rw [← hPQ, Nat.mul_comm P Q]
    exact Nat.mul_le_mul_right P hA'
  have hAP : A * P = b * 2147483648 + A' * P := by
    rw [← hPQ, ← hdm]
    ring
  have hprod2 : (A' + 1) * P = A' * P + P := by ring
  generalize hM : A' * P = M at *
  have hulv : ul = b * 2147483648 + (M + q) := by rw [hul, hAP]; ring
  have hul32 : ul < 4294967296 := by omega
  have hdiv : ul / 2147483648 = b := by omega
  have hsh : 2 * ul % 4294967296 = 2 * M + 2 * q := by omega
  have hmul : A' * (2 * P) = 2 * M := by rw [← hM]; ring
  rw [calculate_digit_body_eq radix ul acc hul32 (by omega), hdiv, hsh]
  by_cases hc : radix ≤ 2 * acc + b
  · simp only [hc, if_true]
    refine ⟨A', 2 * q + 1, by rw [hmul]; ring, by omega, hA', by omega, ?_⟩
    have e : (2 * q + 1) * radix + (2 * acc + b - radix) = 2 * (q * radix + acc) + b := by
      have : (2 * q + 1) * radix = 2 * (q * radix) + radix := by ring
      omega
    rw [e, ← hv, ← hdm]
    ring
  · simp only [hc, if_false]
    refine ⟨A', 2 * q, by rw [hmul], by omega, hA', by omega, ?_⟩
    have e : 2 * q * radix + (2 * acc + b) = 2 * (q * radix + acc) + b := by ring
    rw [e, ← hv, ← hdm]
    ring

/-- The 32 rounds take the invariant from round `k` to round 32. -/
theorem calculate_digit_loop_inv (v radix : Nat) (hr : radix ≤ 128) :
    ∀ (n k : Nat) (s : Nat × Nat), k + n + 1 = 32 →
      (∃ A q, s.1 = A * 2 ^ k + q ∧ q < 2 ^ k ∧ A < 2 ^ (32 - k) ∧ s.2 < radix ∧
        (q * radix + s.2) * 2 ^ (32 - k) + A = v) →
      (calculate_digit_loop radix n s).2 < radix ∧
        (calculate_digit_loop radix n s).1 * radix + (calculate_digit_loop radix n s).2 = v := by
  intro n
  induction n with
  | zero =>
    intro k s hk h
    have hk31 : k = 31 := by omega
    subst hk31
    obtain ⟨A, q, h1, _, h3, h4, h5⟩ :=
      calculate_digit_body_inv v radix 31 s.1 s.2 hr (by omega) h
    simp only [calculate_digit_loop]
    norm_num at h3
    subst h3
    refine ⟨h4, ?_⟩
    rw [h1]
    simpa using h5
  | succ n ih =>
    intro k s hk h
    simp only [calculate_digit_loop]
    exact ih (k + 1) _ (by omega)
      (calculate_digit_body_inv v radix k s.1 s.2 hr (by omega) h)

/-- For a 32-bit value and a radix between 1 and 128, `calculate_digit` on a
cleared accumulator leaves the quotient in `ul` and the remainder in
`byte[4]`. -/
theorem calculate_digit_divmod (v radix : Nat) (hv : v < 4294967296)
    (hr0 : 0 < radix) (hr : radix ≤ 128) :
    calculate_digit { ul := v, byte4 := 0 } radix =
      { ul := v / radix, byte4 := v % radix } := by
  have h := calculate_digit_loop_inv v radix hr 31 0 (v, 0) (by omega)
    ⟨v, 0, by simp, by simp, by simpa using hv, hr0, by simp⟩
  obtain ⟨h1, h2⟩ := h
  unfold calculate_digit
  simp only
  generalize calculate_digit_loop radix 31 (v, 0) = r at h1 h2
  have hq : r.1 = v / radix := by
    rw [← h2, Nat.mul_comm, Nat.mul_add_div hr0, Nat.div_eq_of_lt h1]
    simp
  have hm : r.2 = v % radix := by
    rw [← h2, Nat.mul_comm, Nat.mul_add_mod, Nat.mod_eq_of_lt h1]
  rw [hq, hm]

/-! ## Packing and unpacking of the digits -/

theorem nibble_pack (x y : Nat) (hx : x < 16) (hy : y < 16) :
    ((x <<< 4) ||| (x >>> 4) ||| y) % 256 = 16 * x + y := by
  have h1 : x >>> 4 = 0 := by rw [Nat.shiftRight_eq_div_pow]; norm_num; omega
  have h2 : (x <<< 4) ||| y = 16 * x + y := by
    rw [Nat.shiftLeft_eq, Nat.mul_comm]
    exact (Nat.mul_add_lt_is_or (i := 4) (b := y) (by omega) x).symm
  rw [h1, Nat.or_zero, h2]
  omega

theorem nibble_high (x y : Nat) (hy : y < 16) : (16 * x + y) >>> 4 = x := by
  rw [Nat.shiftRight_eq_div_pow]
  norm_num
  omega

theorem nibble_low (x y : Nat) (hy : y < 16) : (16 * x + y) &&& 0x0F = y := by
  have := Nat.and_pow_two_sub_one_eq_mod (16 * x + y) 4
  norm_num at this
  rw [this]
  omega

/-- The unpacking loop only looks at `store` from its current position on. -/
theorem Unpacks_frame (st st2 : Int → Option Nat) :
    ∀ (ds : List Nat) (p : Int) (lsd : Bool),
      (∀ j, (if lsd then p + 1 else p) ≤ j → st2 j = st j) →
      Unpacks st p lsd ds → Unpacks st2 p lsd ds := by
  intro ds
  induction ds with
  | nil => intro p lsd _ _; cases lsd <;> trivial
  | cons d ds ih =>
    intro p lsd hfr h
    cases lsd with
    | true =>
      simp only [Unpacks] at h ⊢
      simp only [if_true] at hfr
      refine ⟨h.1, ?_, ih (p + 1) false ?_ h.2.2⟩
      · rw [hfr (p + 1) (le_refl _)]; exact h.2.1
      · intro j hj
        simp only [Bool.false_eq_true, if_false] at hj
        exact hfr j hj
    | false =>
      simp only [Unpacks] at h ⊢
      simp only [Bool.false_eq_true, if_false] at hfr
      refine ⟨h.1, ?_, ih p true ?_ h.2.2⟩
      · rw [hfr p (le_refl _)]; exact h.2.1
      · intro j hj
        simp only [if_true] at hj
        exact hfr j (by omega)

/-- The unpacking loop outputs the digits described by `Unpacks`. -/
theorem output_digits_unpacks (lower_case : Bool) :
    ∀ (ds : List Nat) (d : Digits) (o : Out),
      Unpacks d.store d.pstore d.lsd ds →
      output_digits lower_case ds.length d o =
        some { chars := o.chars ++ ds.map (fun x => digit_char x lower_case),
               charsOutputted := o.charsOutputted + ds.length } := by
  intro ds
  induction ds with
  | nil => intro d o _; simp [output_digits]
  | cons x ds ih =>
    intro d o h
    obtain ⟨ul, st, p, len, lsd⟩ := d
    cases lsd with
    | true =>
      simp only [Unpacks] at h
      obtain ⟨hb, hx, hrest⟩ := h
      cases hst : st (p + 1) with
      | none => rw [hst] at hx; simp at hx
      | some y =>
        rw [hst] at hx
        simp only [Option.map_some', Option.some.injEq] at hx
        simp only [List.length_cons, output_digits, Bool.not_true, Bool.not_false,
          store_read, hb, and_self, if_true, hst]
        rw [ih _ _ hrest]
        simp [output_digit, output_char, hx, Nat.add_assoc, Nat.add_comm 1]
    | false =>
      simp only [Unpacks] at h
      obtain ⟨hb, hx, hrest⟩ := h
      cases hst : st p with
      | none => rw [hst] at hx; simp at hx
      | some y =>
        rw [hst] at hx
        simp only [Option.map_some', Option.some.injEq] at hx
        simp only [List.length_cons, output_digits, Bool.not_true, Bool.not_false,
          store_read, hb, and_self, if_true, hst, Bool.false_eq_true, if_false]
        rw [ih _ _ hrest]
        simp [output_digit, output_char, hx, Nat.add_assoc, Nat.add_comm 1]

/-- One round of the packing loop pushes the digit `ul % r` and leaves the
quotient in `value.ul`. -/
theorem digit_body_packed (r : Nat) (hr0 : 0 < r) (hr : r ≤ 16) (d : Digits)
    (ds : List Nat) (hul : d.ul < 4294967296) (hlen : ds.length ≤ 11)
    (h : Packed d ds) :
    ∃ d2, digit_body r d = some d2 ∧ d2.ul = d.ul / r ∧ Packed d2 (d.ul % r :: ds) := by
  obtain ⟨ul, st, p, len, lsd⟩ := d
  obtain ⟨hU, hS, hP, hL⟩ := h
  simp only at hU hS hP hL hul
  have hx : ul % r < 16 := lt_of_lt_of_le (Nat.mod_lt _ hr0) hr
  cases lsd with
  | true =>
    simp only [if_true] at hP
    have hb : 0 ≤ p ∧ p < 6 := by constructor <;> omega
    refine ⟨{ ul := ul / r, store := fun j => if j = p then some (ul % r) else st j,
              pstore := p, length := (len + 1) % 256, lsd := false }, ?_, rfl, ?_⟩
    · simp [digit_body, calculate_digit_divmod ul r hul hr0 (by omega), store_write, hb]
    · refine ⟨?_, ?_, ?_, ?_⟩
      · simp only [Unpacks]
        refine ⟨hb, ?_, ?_⟩
        · have := nibble_low 0 (ul % r) hx
          simp only [Nat.mul_zero, Nat.zero_add] at this
          simp [this]
        · refine Unpacks_frame st _ ds p true ?_ hU
          intro j hj
          simp only [if_true] at hj
          have : j ≠ p := by omega
          simp [this]
      · intro _
        exact ⟨ul % r, hx, by simp, by simp⟩
      · simp only [Bool.false_eq_true, if_false, List.length_cons]
        push_cast
        omega
      · simp only [List.length_cons]
        omega
  | false =>
    obtain ⟨y, hy, hsty, hhead⟩ := hS rfl
    simp only [Bool.false_eq_true, if_false] at hP
    cases ds with
    | nil => simp at hhead
    | cons y2 rest =>
      simp only [List.head?_cons, Option.some.injEq] at hhead
      subst hhead
      simp only [List.length_cons] at hP hlen hL
      have hb : 0 ≤ p ∧ p < 6 := by constructor <;> omega
      simp only [Unpacks] at hU
      refine ⟨{ ul := ul / r,
                store := fun j => if j = p then some (16 * (ul % r) + y2) else st j,
                pstore := p - 1, length := (len + 1) % 256, lsd := true }, ?_, rfl, ?_⟩
      · simp [digit_body, calculate_digit_divmod ul r hul hr0 (by omega), store_write,
          store_read, hb, hsty, nibble_pack _ _ hx hy]
      · refine ⟨?_, ?_, ?_, ?_⟩
        · simp only [Unpacks, sub_add_cancel]
          refine ⟨hb, ?_, hb, ?_, ?_⟩
          · simp [nibble_high _ _ hy]
          · simp [nibble_low _ _ hy]
          · refine Unpacks_frame st _ rest p true ?_ hU.2.2
            intro j hj
            simp only [if_true] at hj
            have : j ≠ p := by omega
            simp [this]
        · intro hc
          simp at hc
        · simp only [if_true, List.length_cons]
          push_cast
          omega
        · simp only [List.length_cons]
          omega

/-- The packing loop pushes the digits of `ul`, least significant first, and
stops with `value.ul = 0`, provided they fit the buffer and the round bound. -/
theorem digit_loop_packed (r : Nat) (hr2 : 2 ≤ r) (hr : r ≤ 16) :
    ∀ (fuel : Nat) (d : Digits) (ds : List Nat),
      d.ul < 4294967296 → Packed d ds →
      ds.length + (Nat.digits r (d.ul / r)).length ≤ 11 →
      (Nat.digits r (d.ul / r)).length < fuel →
      ∃ d2, digit_loop r fuel d = some d2 ∧ d2.ul = 0 ∧
        Packed d2 ((Nat.digits r (d.ul / r)).reverse ++ d.ul % r :: ds) := by
  intro fuel
  induction fuel with
  | zero => intro d ds _ _ _ hf; omega
  | succ fuel ih =>
    intro d ds hul hp hlen hf
    obtain ⟨d1, hb, hq, hp1⟩ := digit_body_packed r (by omega) hr d ds hul (by omega) hp
    simp only [digit_loop, hb]
    by_cases hz : d.ul / r = 0
    · refine ⟨d1, ?_, by rw [hq, hz], ?_⟩
      · simp [hq, hz]
      · simpa [hz] using hp1
    · have hdig : Nat.digits r (d.ul / r) =
          (d.ul / r) % r :: Nat.digits r (d.ul / r / r) :=
        Nat.digits_def' (by omega) (Nat.pos_of_ne_zero hz)
      rw [hdig] at hlen hf
      simp only [List.length_cons] at hlen hf
      have hul1 : d1.ul < 4294967296 := by
        rw [hq]
        exact lt_of_le_of_lt (Nat.div_le_self _ _) hul
      obtain ⟨d2, h1, h2, h3⟩ := ih d1 (d.ul % r :: ds) hul1 hp1
        (by rw [hq]; simp only [List.length_cons]; omega) (by rw [hq]; omega)
      refine ⟨d2, ?_, h2, ?_⟩
      · simp [hq, hz, h1]
      · rw [hq] at h3
        rw [hdig]
        simpa using h3

/-- The representation of `v`, least significant digit first, as the packing
loop produces it. -/
theorem base_repr_eq (r v : Nat) (hr2 : 2 ≤ r) :
    base_repr r v = (Nat.digits r (v / r)).reverse ++ [v % r] := by
  unfold base_repr
  by_cases hv : v = 0
  · subst hv
    simp
  · rw [if_neg hv, Nat.digits_def' (by omega) (Nat.pos_of_ne_zero hv)]
    simp

/-- A 32-bit value has at most 11 digits in a radix of at least 8. -/
theorem digits_length_bound (r v : Nat) (hr : 8 ≤ r) (hv : v < 4294967296) :
    (Nat.digits r (v / r)).length ≤ 10 := by
  by_cases hz : v / r = 0
  · simp [hz]
  · have h1 := Nat.base_pow_length_digits_le r (v / r) (by omega) hz
    have h2 : r * (v / r) ≤ v := Nat.mul_div_le v r
    by_contra hc
    have h3 : r ^ 11 ≤ r ^ (Nat.digits r (v / r)).length :=
      Nat.pow_le_pow_right (by omega) (by omega)
    have h4 : 8 ^ 11 ≤ r ^ 11 := Nat.pow_le_pow_left hr 11
    norm_num at h4
    omega

/-- The packing loop followed by the unpacking loop: for a 32-bit value and a
radix from 8 to 16 the packing loop returns, with `length` the number of
digits, and the unpacking loop then outputs the base-`r` digits of the value,
most significant first. -/
theorem digit_loop_output (r v : Nat) (hr8 : 8 ≤ r) (hr : r ≤ 16)
    (hv : v < 4294967296) :
    ∃ d, digit_loop r 32 (Digits.start v) = some d ∧ d.ul = 0 ∧
      d.length = (base_repr r v).length ∧
      ∀ (lower_case : Bool) (o : Out), output_digits lower_case d.length d o =
        some { chars := o.chars ++ (base_repr r v).map (fun x => digit_char x lower_case),
               charsOutputted := o.charsOutputted + (base_repr r v).length } := by
  have hb := digits_length_bound r v hr8 hv
  have hstart : Packed (Digits.start v) [] := by
    refine ⟨trivial, ?_, ?_, rfl⟩
    · intro h; simp [Digits.start] at h
    · simp [Digits.start]
  obtain ⟨d, h1, h2, h3⟩ := digit_loop_packed r (by omega) hr 32 (Digits.start v) []
    hv hstart (by simpa [Digits.start] using (by omega : (Nat.digits r (v / r)).length ≤ 11))
    (by simp only [Digits.start]; omega)
  simp only [Digits.start] at h3
  rw [← base_repr_eq r v (by omega)] at h3
  refine ⟨d, h1, h2, h3.2.2.2, ?_⟩
  intro lower_case o
  rw [h3.2.2.2]
  exact output_digits_unpacks lower_case (base_repr r v) d o h3.1

/-! ## The standard representation -/

theorem parse_digits_eq_ofDigits (r : Nat) (ds : List Nat) :
    parse_digits r ds = Nat.ofDigits r ds.reverse := by
  unfold parse_digits
  rw [Nat.ofDigits_eq_foldr, List.foldr_reverse]
  congr 1
  funext acc d
  simp only [Nat.cast_id]
  ring

theorem parse_base_repr (r v : Nat) : parse_digits r (base_repr r v) = v := by
  rw [parse_digits_eq_ofDigits]
  unfold base_repr
  by_cases hv : v = 0
  · subst hv; simp [Nat.ofDigits]
  · rw [if_neg hv, List.reverse_reverse, Nat.ofDigits_digits]

theorem base_repr_lt (r v : Nat) (hr2 : 2 ≤ r) : ∀ x ∈ base_repr r v, x < r := by
  intro x hx
  unfold base_repr at hx
  by_cases hv : v = 0
  · rw [if_pos hv] at hx
    simp only [List.mem_singleton] at hx
    omega
  · rw [if_neg hv, List.mem_reverse] at hx
    exact Nat.digits_lt_base (by omega) hx

theorem base_repr_head (r v : Nat) (hv : v ≠ 0) : (base_repr r v).head? ≠ some 0 := by
  unfold base_repr
  rw [if_neg hv, List.head?_reverse]
  intro h
  have hne : Nat.digits r v ≠ [] := Nat.digits_ne_nil_iff_ne_zero.mpr hv
  have h2 := Nat.getLast_digit_ne_zero r hv
  rw [List.getLast?_eq_getLast _ hne] at h
  exact h2 (Option.some.inj h)

theorem digit_value_digit_char (lower_case : Bool) :
    ∀ x, x < 16 → digit_value (digit_char x lower_case) = x := by
  cases lower_case <;> decide

theorem parse_emitted (r v : Nat) (hr2 : 2 ≤ r) (hr : r ≤ 16) (lower_case : Bool) :
    parse_digits r (((base_repr r v).map fun x => digit_char x lower_case).map digit_value)
      = v := by
  have h : ((base_repr r v).map fun x => digit_char x lower_case).map digit_value
      = base_repr r v := by
    rw [List.map_map]
    conv_rhs => rw [← List.map_id (base_repr r v)]
    apply List.map_congr_left
    intro x hx
    have := base_repr_lt r v hr2 x hx
    simp only [Function.comp, id]
    exact digit_value_digit_char lower_case x (by omega)
  rw [h, parse_base_repr]

/-- C1: for every 32-bit value `v` and radix `r` in {8, 10, 16}, the packing
loop (clear `byte[4]`, `calculate_digit`, pack, repeat while the value is
non-zero) returns and the unpacking loop then gives the sink exactly the
characters of the standard base-`r` representation of `v`, most significant
digit first (digits below `r`, no leading zero, the single digit 0 for
`v = 0`), counting each of them; reading the emitted characters back in base
`r` gives `v`. -/
theorem conversion_emits_base_repr (v r : Nat) (lower_case : Bool) (o : Out)
    (hv : v < 4294967296) (hr : r = 8 ∨ r = 10 ∨ r = 16) :
    ((digit_loop r 32 (Digits.start v)).bind fun d =>
        output_digits lower_case d.length d o) =
      some (emit ((base_repr r v).map fun x => digit_char x lower_case) o) ∧
    parse_digits r
      (((base_repr r v).map fun x => digit_char x lower_case).map digit_value) = v ∧
    (∀ x ∈ base_repr r v, x < r) ∧
    (v ≠ 0 → (base_repr r v).head? ≠ some 0) ∧
    (v = 0 → base_repr r v = [0]) := by
  have hr8 : 8 ≤ r := by omega
  have hr16 : r ≤ 16 := by omega
  obtain ⟨d, h1, _, _, h4⟩ := digit_loop_output r v hr8 hr16 hv
  refine ⟨?_, parse_emitted r v (by omega) hr16 lower_case, base_repr_lt r v (by omega),
    base_repr_head r v, ?_⟩
  · rw [h1]
    simp only [Option.some_bind, h4]
    simp [emit]
  · intro h0
    simp [base_repr, h0]

/-- C1 at the largest 32-bit value in octal (11 digits, the longest run). -/
theorem conversion_emits_base_repr_witness :
    (4294967295 < 4294967296 ∧ ((8 : Nat) = 8 ∨ (8 : Nat) = 10 ∨ (8 : Nat) = 16)) ∧
    (((digit_loop 8 32 (Digits.start 4294967295)).bind fun d =>
        output_digits false d.length d { chars := [], charsOutputted := 0 }) =
      some (emit ((base_repr 8 4294967295).map fun x => digit_char x false)
        { chars := [], charsOutputted := 0 }) ∧
    parse_digits 8
      (((base_repr 8 4294967295).map fun x => digit_char x false).map digit_value)
        = 4294967295 ∧
    (∀ x ∈ base_repr 8 4294967295, x < 8) ∧
    (4294967295 ≠ 0 → (base_repr 8 4294967295).head? ≠ some 0) ∧
    (4294967295 = 0 → base_repr 8 4294967295 = [0])) :=
  ⟨⟨by decide, Or.inl rfl⟩,
    conversion_emits_base_repr 4294967295 8 false { chars := [], charsOutputted := 0 }
      (by decide) (Or.inl rfl)⟩

/-! ## The representation agrees with the numeral printer of the library -/

theorem base_repr_small (b n : Nat) (hb : 2 ≤ b) (h : n / b = 0) : base_repr b n = [n % b] := by
  rw [base_repr_eq b n hb, h]
  simp

theorem base_repr_step (b n : Nat) (hb : 2 ≤ b) (h : n / b ≠ 0) :
    base_repr b n = base_repr b (n / b) ++ [n % b] := by
  rw [base_repr_eq b n hb]
  unfold base_repr
  rw [if_neg h]

theorem toDigitsCore_eq_base_repr (b : Nat) (hb : 2 ≤ b) :
    ∀ (fuel n : Nat) (ds : List Char), n < fuel →
      Nat.toDigitsCore b fuel n ds = (base_repr b n).map Nat.digitChar ++ ds := by
  intro fuel
  induction fuel with
  | zero => intro n ds h; omega
  | succ fuel ih =>
    intro n ds h
    simp only [Nat.toDigitsCore]
    by_cases hz : n / b = 0
    · simp [hz, base_repr_small b n hb hz]
    · have hlt : n / b < n := by
        have hn : 0 < n := by
          rcases Nat.eq_zero_or_pos n with h0 | h0
          · subst h0; simp at hz
          · exact h0
        exact Nat.div_lt_self hn (by omega)
      simp only [hz, if_false]
      rw [ih (n / b) _ (by omega), base_repr_step b n hb hz]
      simp

theorem toDigits_eq_base_repr (b n : Nat) (hb : 2 ≤ b) :
    Nat.toDigits b n = (base_repr b n).map Nat.digitChar := by
  unfold Nat.toDigits
  rw [toDigitsCore_eq_base_repr b hb (n + 1) n [] (by omega)]
  simp

theorem digitChar_decimal : ∀ d, d < 10 → (Nat.digitChar d).toNat = d + 48 := by
  decide

theorem digitChar_hex : ∀ d, d < 16 → (Nat.digitChar d).toNat = hex_lower d := by
  decide

/-- The decimal digits of `n` are the characters of the numeral `n` as the
library prints it. -/
theorem decimal_text_eq_repr (n : Nat) : decimal_text n = bytes (Nat.repr n) := by
  show decimal_text n = (Nat.toDigits 10 n).map Char.toNat
  rw [toDigits_eq_base_repr 10 n (by omega), List.map_map]
  unfold decimal_text
  apply List.map_congr_left
  intro d hd
  exact (digitChar_decimal d (base_repr_lt 10 n (by omega) d hd)).symm

/-- The lower case hexadecimal digits of `n` are the characters of `n` printed
in base 16 by the library. -/
theorem hex_lower_eq_toDigits (n : Nat) :
    (base_repr 16 n).map hex_lower = (Nat.toDigits 16 n).map Char.toNat := by
  rw [toDigits_eq_base_repr 16 n (by omega), List.map_map]
  apply List.map_congr_left
  intro d hd
  exact (digitChar_hex d (base_repr_lt 16 n (by omega) d hd)).symm

/-! ## Every output path delivers and counts the same characters -/

theorem OUTPUT_CHAR_eq (c : Nat) (o : Out) : OUTPUT_CHAR c o = emit [c] o := rfl

theorem emit_nil (o : Out) : emit [] o = o := by
  simp [emit]

theorem emit_emit (bs cs : List Nat) (o : Out) :
    emit cs (emit bs o) = emit (bs ++ cs) o := by
  simp [emit, Nat.add_assoc]

theorem emit_count (cs : List Nat) (o : Out)
    (h : o.charsOutputted = o.chars.length) :
    (emit cs o).charsOutputted = (emit cs o).chars.length := by
  simp [emit, h]

theorem space_loop_snd : ∀ (w : Nat) (o : Out),
    (space_loop w o).2 = emit (List.replicate w 32) o := by
  intro w
  induction w with
  | zero => intro o; simp [space_loop, emit_nil]
  | succ w ih =>
    intro o
    simp only [space_loop, ih, OUTPUT_CHAR_eq, emit_emit, List.replicate_succ,
      List.singleton_append]

theorem pad_loop_snd (zero_padding : Bool) (length : Nat) : ∀ (w : Nat) (o : Out),
    (pad_loop zero_padding length w o).2 =
      emit (List.replicate (w - length) (if zero_padding then 48 else 32)) o := by
  intro w
  induction w with
  | zero => intro o; simp [pad_loop, emit_nil]
  | succ w ih =>
    intro o
    by_cases h : w + 1 > length
    · simp only [pad_loop, h, if_true, ih, OUTPUT_CHAR_eq, emit_emit]
      rw [show w + 1 - length = (w - length) + 1 by omega, List.replicate_succ,
        List.singleton_append]
    · simp only [pad_loop, h, if_false]
      rw [show w + 1 - length = 0 by omega]
      simp [emit_nil]

theorem lead_spaces_eq (length : Nat) : ∀ (w : Nat) (o : Out),
    lead_spaces length w o =
      (min w ((length + 1) % 256),
        emit (List.replicate (w - (length + 1) % 256) 32) o) := by
  intro w
  induction w with
  | zero => intro o; simp [lead_spaces, emit_nil]
  | succ w ih =>
    intro o
    by_cases h : w + 1 > (length + 1) % 256
    · simp only [lead_spaces, h, if_true, ih, OUTPUT_CHAR_eq, emit_emit]
      rw [show w + 1 - (length + 1) % 256 = (w - (length + 1) % 256) + 1 by omega,
        List.replicate_succ, List.singleton_append]
      congr 1
      omega
    · simp only [lead_spaces, h, if_false]
      rw [show w + 1 - (length + 1) % 256 = 0 by omega]
      simp only [List.replicate_zero, emit_nil]
      congr 1
      omega

/-- The string loop delivers the bytes before the terminator, at most
`decimals` of them. -/
theorem string_loop_eq : ∀ (s : List Nat) (decimals : Int) (o : Out),
    string_loop s decimals o =
      emit ((s.takeWhile fun c => decide (c ≠ 0)).take decimals.toNat) o := by
  intro s
  induction s with
  | nil => intro decimals o; simp [string_loop, emit_nil]
  | cons c s ih =>
    intro decimals o
    by_cases hc : c = 0
    · simp [string_loop, hc, emit_nil]
    · by_cases hd : decimals > 0
      · have e : decimals.toNat = (decimals - 1).toNat + 1 := by omega
        simp only [string_loop, hc, if_false, hd, if_true, ih, OUTPUT_CHAR_eq, emit_emit]
        rw [List.takeWhile_cons_of_pos (by simpa using hc), e, List.take_succ_cons,
          List.singleton_append]
      · have e : decimals.toNat = 0 := by omega
        simp [string_loop, hc, hd, e, emit_nil]

theorem Extends.refl (o : Out) : Extends o o := ⟨[], (emit_nil o).symm⟩

theorem Extends.trans {a b c : Out} (h1 : Extends a b) (h2 : Extends b c) :
    Extends a c := by
  obtain ⟨bs, rfl⟩ := h1
  obtain ⟨cs, rfl⟩ := h2
  exact ⟨bs ++ cs, emit_emit bs cs a⟩

theorem Extends.emit (cs : List Nat) (o : Out) : Extends o (emit cs o) := ⟨cs, rfl⟩

theorem output_digits_extends (lower_case : Bool) :
    ∀ (n : Nat) (d : Digits) (o r : Out),
      output_digits lower_case n d o = some r → Extends o r := by
  intro n
  induction n with
  | zero =>
    intro d o r h
    simp only [output_digits, Option.some.injEq] at h
    subst h
    exact Extends.refl o
  | succ n ih =>
    intro d o r h
    simp only [output_digits] at h
    split at h
    · exact absurd h (by simp)
    · rename_i ps b4 _
      refine Extends.trans ?_ (ih _ _ _ h)
      exact ⟨[digit_char b4 lower_case], rfl⟩

theorem sign_step_extends (cv : Conv) (sa : Bool) (length width : Nat) (o : Out) :
    Extends o (sign_step cv sa length width o).2 := by
  unfold sign_step
  split_ifs <;> first | exact Extends.refl o | exact Extends.emit _ o

theorem lead_step_extends (cv : Conv) (length width : Nat) (o : Out) :
    Extends o (lead_step cv length width o).2 := by
  unfold lead_step
  split_ifs
  · rw [lead_spaces_eq]; exact Extends.emit _ o
  · exact Extends.refl o

theorem pad_step_extends (cv : Conv) (length width : Nat) (o : Out) :
    Extends o (pad_step cv length width o).2 := by
  unfold pad_step
  split_ifs
  · rw [pad_loop_snd]; exact Extends.emit _ o
  · exact Extends.refl o
  · exact Extends.refl o

theorem trail_step_extends (cv : Conv) (width : Nat) (o : Out) :
    Extends o (trail_step cv width o) := by
  unfold trail_step
  split_ifs
  · rw [space_loop_snd]; exact Extends.emit _ o
  · exact Extends.refl o

theorem print_integer_extends (cv : Conv) (lower_case : Bool) (ap ap2 : List Arg)
    (o r : Out) (h : print_integer cv lower_case ap o = some (ap2, r)) :
    Extends o r := by
  unfold print_integer at h
  split at h
  · rename_i a ap1
    split at h
    · exact absurd h (by simp)
    · rename_i l hl
      simp only at h
      split at h
      · exact absurd h (by simp)
      · rename_i d hd
        split at h
        · exact absurd h (by simp)
        · rename_i o4 ho4
          simp only [Option.some.injEq, Prod.mk.injEq] at h
          obtain ⟨_, h⟩ := h
          rw [← h]
          exact Extends.trans (Extends.trans (Extends.trans (Extends.trans
            (lead_step_extends _ _ _ _) (sign_step_extends _ _ _ _ _))
            (pad_step_extends _ _ _ _)) (output_digits_extends _ _ _ _ _ ho4))
            (trail_step_extends _ _ _)
  · exact absurd h (by simp)

/-- The string case in closed form: padding, the bytes before the terminator
cut at `decimals`, padding. -/
theorem print_string_eq (cv : Conv) (s : List Nat) (o : Out) :
    print_string cv s o =
      emit ((if (!cv.left_justify && decide (strlen s % 256 < cv.width)) = true then
              List.replicate (cv.width - strlen s % 256) 32 else []) ++
            (s.takeWhile fun c => decide (c ≠ 0)).take
              (if cv.decimals = -1 then toSChar (strlen s % 256) else cv.decimals).toNat ++
            (if (cv.left_justify && decide (strlen s % 256 < cv.width)) = true then
              List.replicate (cv.width - strlen s % 256) 32 else [])) o := by
  unfold print_string
  cases hl : cv.left_justify
  · by_cases hw : strlen s % 256 < cv.width
    · simp [hw, string_loop_eq, space_loop_snd, emit_emit]
    · simp [hw, string_loop_eq, emit_emit]
  · by_cases hw : strlen s % 256 < cv.width
    · simp [hw, string_loop_eq, space_loop_snd, emit_emit]
    · simp [hw, string_loop_eq, emit_emit]

theorem print_pointer_extends (lower_case : Bool) (a : Nat) (o : Out) :
    Extends o (print_pointer lower_case a o) :=
  ⟨[48, 120,
    digit_char (((a % 4294967296) >>> 24 &&& 0xFF) >>> 4) lower_case,
    digit_char (((a % 4294967296) >>> 24 &&& 0xFF) &&& 0x0F) lower_case,
    digit_char (((a % 4294967296) >>> 16 &&& 0xFF) >>> 4) lower_case,
    digit_char (((a % 4294967296) >>> 16 &&& 0xFF) &&& 0x0F) lower_case,
    digit_char (((a % 4294967296) >>> 8 &&& 0xFF) >>> 4) lower_case,
    digit_char (((a % 4294967296) >>> 8 &&& 0xFF) &&& 0x0F) lower_case,
    digit_char (((a % 4294967296) &&& 0xFF) >>> 4) lower_case,
    digit_char (((a % 4294967296) &&& 0xFF) &&& 0x0F) lower_case], by
    simp [print_pointer, OUTPUT_CHAR, OUTPUT_2DIGITS, output_2digits, output_digit,
      output_char, emit]⟩

theorem after_switch_extends (cv : Conv) (lower_case : Bool) (ap ap2 : List Arg)
    (o r : Out) (h : after_switch cv lower_case ap o = some (ap2, r)) :
    Extends o r := by
  unfold after_switch at h
  split_ifs at h
  · simp only [Option.some.injEq, Prod.mk.injEq] at h
    rw [← h.2]
    exact ⟨[60, 37, 102, 62], by simp [output_literal, OUTPUT_CHAR_eq, emit_emit]⟩
  · exact print_integer_extends _ _ _ _ _ _ h
  · simp only [Option.some.injEq, Prod.mk.injEq] at h
    rw [← h.2]
    exact Extends.refl o

theorem finish_extends (cv : Conv) (lower_case : Bool) (ap ap2 : List Arg)
    (o r : Out) (m : Option Conv) (h : finish cv lower_case ap o = some (m, ap2, r)) :
    Extends o r := by
  unfold finish at h
  split at h
  · rename_i res hres
    simp only [Option.some.injEq, Prod.mk.injEq] at h
    rw [← h.2.2]
    exact after_switch_extends cv lower_case ap res.1 o res.2 hres
  · exact absurd h (by simp)

theorem switch_c_extends (c : Nat) (lower_case : Bool) (cv : Conv) (ap ap2 : List Arg)
    (o r : Out) (m : Option Conv)
    (h : switch_c c lower_case cv ap o = some (m, ap2, r)) : Extends o r := by
  unfold switch_c at h
  by_cases h1 : c = 45
  · rw [if_pos h1] at h
    simp only [Option.some.injEq, Prod.mk.injEq] at h
    rw [← h.2.2]
    exact Extends.refl o
  rw [if_neg h1] at h
  by_cases h2 : c = 43
  · rw [if_pos h2] at h
    simp only [Option.some.injEq, Prod.mk.injEq] at h
    rw [← h.2.2]
    exact Extends.refl o
  rw [if_neg h2] at h
  by_cases h3 : c = 32
  · rw [if_pos h3] at h
    simp only [Option.some.injEq, Prod.mk.injEq] at h
    rw [← h.2.2]
    exact Extends.refl o
  rw [if_neg h3] at h
  by_cases h4 : c = 66
  · rw [if_pos h4] at h
    simp only [Option.some.injEq, Prod.mk.injEq] at h
    rw [← h.2.2]
    exact Extends.refl o
  rw [if_neg h4] at h
  by_cases h5 : c = 72 ∨ c = 74 ∨ c = 84 ∨ c = 90
  · rw [if_pos h5] at h
    simp only [Option.some.injEq, Prod.mk.injEq] at h
    rw [← h.2.2]
    exact Extends.refl o
  rw [if_neg h5] at h
  by_cases h6 : c = 76
  · rw [if_pos h6] at h
    simp only [Option.some.injEq, Prod.mk.injEq] at h
    rw [← h.2.2]
    exact Extends.refl o
  rw [if_neg h6] at h
  by_cases h7 : c = 67
  · rw [if_pos h7] at h
    split at h
    · exact absurd h (by simp)
    · split at h
      · exact Extends.trans (Extends.emit _ o) (finish_extends _ _ _ _ _ _ _ h)
      · exact absurd h (by simp)
  rw [if_neg h7] at h
  by_cases h8 : c = 83
  · rw [if_pos h8] at h
    split at h
    · exact Extends.trans (by rw [print_string_eq]; exact Extends.emit _ o)
        (finish_extends _ _ _ _ _ _ _ h)
    · exact absurd h (by simp)
  rw [if_neg h8] at h
  by_cases h9 : c = 80
  · rw [if_pos h9] at h
    split at h
    · exact Extends.trans (print_pointer_extends _ _ o) (finish_extends _ _ _ _ _ _ _ h)
    · exact absurd h (by simp)
  rw [if_neg h9] at h
  by_cases h10 : c = 68 ∨ c = 73
  · rw [if_pos h10] at h
    exact finish_extends _ _ _ _ _ _ _ h
  rw [if_neg h10] at h
  by_cases h11 : c = 79
  · rw [if_pos h11] at h
    exact finish_extends _ _ _ _ _ _ _ h
  rw [if_neg h11] at h
  by_cases h12 : c = 85
  · rw [if_pos h12] at h
    exact finish_extends _ _ _ _ _ _ _ h
  rw [if_neg h12] at h
  by_cases h13 : c = 88
  · rw [if_pos h13] at h
    exact finish_extends _ _ _ _ _ _ _ h
  rw [if_neg h13] at h
  by_cases h14 : c = 70
  · rw [if_pos h14] at h
    exact finish_extends _ _ _ _ _ _ _ h
  rw [if_neg h14] at h
  exact Extends.trans (Extends.emit _ o) (finish_extends _ _ _ _ _ _ _ h)

theorem get_conversion_spec_extends (c : Nat) (cv : Conv) (ap ap2 : List Arg)
    (o r : Out) (m : Option Conv)
    (h : get_conversion_spec c cv ap o = some (m, ap2, r)) : Extends o r := by
  unfold get_conversion_spec at h
  split_ifs at h
  all_goals first
    | (simp only [Option.some.injEq, Prod.mk.injEq] at h
       rw [← h.2.2]
       first | exact Extends.refl o | exact Extends.emit _ o)
    | exact switch_c_extends _ _ _ _ _ _ _ _ h

theorem format_loop_extends : ∀ (format : List Nat) (m : Option Conv) (ap ap2 : List Arg)
    (o r : Out), format_loop format m ap o = some (ap2, r) → Extends o r := by
  intro format
  induction format with
  | nil => intro m ap ap2 o r h; simp [format_loop] at h
  | cons c format ih =>
    intro m ap ap2 o r h
    cases m with
    | none =>
      simp only [format_loop] at h
      split_ifs at h
      · simp only [Option.some.injEq, Prod.mk.injEq] at h
        rw [← h.2]
        exact Extends.refl o
      · exact ih _ _ _ _ _ h
      · exact Extends.trans (Extends.emit _ o) (ih _ _ _ _ _ h)
    | some cv =>
      simp only [format_loop] at h
      split at h
      · exact absurd h (by simp)
      · rename_i m2 ap3 o3 hspec
        exact Extends.trans (get_conversion_spec_extends _ _ _ _ _ _ _ hspec)
          (ih _ _ _ _ _ h)

theorem format_loop_text : ∀ (format : List Nat), 37 ∉ format → 0 ∉ format →
    ∀ (ap : List Arg) (o : Out),
      format_loop (format ++ [0]) none ap o = some (ap, emit format o) := by
  intro format
  induction format with
  | nil => intro _ _ ap o; simp [format_loop, emit_nil]
  | cons c format ih =>
    intro h37 h0 ap o
    simp only [List.mem_cons, not_or] at h37 h0
    have hc0 : c ≠ 0 := fun h => h0.1 h.symm
    have hc37 : c ≠ 37 := fun h => h37.1 h.symm
    simp only [List.cons_append, format_loop, hc0, hc37, if_false]
    rw [show format.append [0] = format ++ [0] from rfl, ih h37.2 h0.2, OUTPUT_CHAR_eq,
      emit_emit, List.singleton_append]

/-- Every increment of the counter goes with one call of the sink: when the
main loop ends, the number of increments is the number of characters
delivered. -/
theorem format_loop_count (format : List Nat) (ap ap2 : List Arg) (r : Out)
    (h : _print_format format ap = some (ap2, r)) :
    r.charsOutputted = r.chars.length := by
  obtain ⟨cs, hcs⟩ := format_loop_extends _ _ _ _ _ _ h
  rw [hcs]
  exact emit_count cs _ rfl

/-- When more than `INT_MAX` characters were delivered the counter has
overflowed and `return charsOutputted;` has no defined value. -/
theorem returned_none_beyond (format : List Nat) (ap ap2 : List Arg) (r : Out)
    (h : _print_format format ap = some (ap2, r)) (hmax : INT_MAX < r.chars.length) :
    returned r = none := by
  have hc := format_loop_count format ap ap2 r h
  unfold returned
  rw [hc, if_neg (by omega)]

/-- A literal template of `INT_MAX + 1` characters: all of them are delivered,
and the `int` counter overflows at the last one. -/
theorem returned_none_at_32768 :
    _print_format (List.replicate 32768 97) [] =
      some ([], { chars := List.replicate 32768 97, charsOutputted := 32768 }) ∧
    returned { chars := List.replicate 32768 97, charsOutputted := 32768 } = none := by
  have key : ∀ n : Nat, _print_format (List.replicate n 97) [] =
      some ([], { chars := List.replicate n 97, charsOutputted := n }) := by
    intro n
    have h37 : 37 ∉ List.replicate n 97 := by
      intro hm
      have := List.eq_of_mem_replicate hm
      omega
    have h0 : 0 ∉ List.replicate n 97 := by
      intro hm
      have := List.eq_of_mem_replicate hm
      omega
    unfold _print_format
    rw [format_loop_text _ h37 h0]
    simp only [emit, List.nil_append, List.length_replicate, Nat.zero_add]
  refine ⟨key 32768, ?_⟩
  have hgt : ¬ (32768 ≤ INT_MAX) := by
    unfold INT_MAX
    omega
  unfold returned
  rw [if_neg hgt]

/-- C3: a template without `%` is delivered to the sink unchanged, consumes
no argument, and the call returns the length of the template. -/
theorem literal_template_verbatim (format : List Nat) (ap : List Arg)
    (hpercent : 37 ∉ format) (hnul : 0 ∉ format) :
    _print_format format ap =
      some (ap, { chars := format, charsOutputted := format.length }) := by
  unfold _print_format
  rw [format_loop_text format hpercent hnul]
  simp [emit]

/-- C3 on the template `"Hello, world!"` with one unused argument. -/
theorem literal_template_verbatim_witness :
    (37 ∉ bytes "Hello, world!" ∧ 0 ∉ bytes "Hello, world!") ∧
    _print_format (bytes "Hello, world!") [Arg.int 7] =
      some ([Arg.int 7], { chars := bytes "Hello, world!",
                           charsOutputted := (bytes "Hello, world!").length }) :=
  ⟨⟨by decide, by decide⟩,
    literal_template_verbatim (bytes "Hello, world!") [Arg.int 7] (by decide) (by decide)⟩

/-! ## The numeric field in closed form -/

theorem toU32_lt (a : Int) : toU32 a < 4294967296 := by
  unfold toU32
  omega

theorem masked_lt (cv : Conv) (a : Int) : masked cv a < 4294967296 := by
  have h := toU32_lt a
  have h2 : toU32 a &&& 0xFFFF ≤ toU32 a := Nat.and_le_left
  unfold masked
  split_ifs <;> omega

/-- Without `char_argument` the fetch gives the masked `int` or `long`. -/
theorem fetch_eq (cv : Conv) (a : Int) (hca : cv.char_argument = false) :
    fetch cv a = some (masked cv a) := by
  simp only [fetch, masked, hca, Bool.false_eq_true, if_false]
  split_ifs <;> rfl

/-- With `char_argument` the fetch is the undefined read `va_arg(ap, char)`. -/
theorem fetch_char (cv : Conv) (a : Int) (hca : cv.char_argument = true) :
    fetch cv a = none := by
  unfold fetch
  rw [hca]
  rfl

theorem negate_lt (sa : Bool) (l : Nat) (h : l < 4294967296) :
    (negate sa l).1 < 4294967296 := by
  unfold negate
  split_ifs <;> simp only <;> omega

theorem base_repr_length (r v : Nat) (hr8 : 8 ≤ r) (hv : v < 4294967296) :
    1 ≤ (base_repr r v).length ∧ (base_repr r v).length ≤ 11 := by
  rw [base_repr_eq r v (by omega)]
  have := digits_length_bound r v hr8 hv
  simp only [List.length_append, List.length_reverse, List.length_singleton]
  omega

theorem sign_step_eq (cv : Conv) (negative : Bool) (length width : Nat) (o : Out)
    (hl : length ≠ 0) (hw1 : 1 ≤ width) (hw : width < 256) :
    sign_step cv negative length width o =
      (width - (sign_text cv negative).length, emit (sign_text cv negative) o) := by
  unfold sign_step sign_text
  have e : (width + 255) % 256 = width - 1 := by omega
  simp only [hl, ne_eq, not_false_eq_true, if_true, e, OUTPUT_CHAR_eq]
  split_ifs <;> simp [emit_nil]

/-- The integer block in closed form, for a radix from 8 to 16 and a width that
fits `unsigned char`: it returns, consumes one integer argument and emits
`field_text` of the magnitude fetched, when the argument is read as `int` or
`long`. -/
theorem print_integer_eq (cv : Conv) (lower_case : Bool) (a : Int) (ap : List Arg)
    (o : Out) (hr8 : 8 ≤ cv.radix) (hr16 : cv.radix ≤ 16) (hw : cv.width < 256)
    (hca : cv.char_argument = false) :
    print_integer cv lower_case (Arg.int a :: ap) o =
      some (ap, emit (field_text cv lower_case
        (negate cv.signed_argument (masked cv a)).2
        (negate cv.signed_argument (masked cv a)).1) o) := by
  have hm := negate_lt cv.signed_argument _ (masked_lt cv a)
  simp only [print_integer, fetch_eq cv a hca]
  generalize (negate cv.signed_argument (masked cv a)) = neg at hm ⊢
  obtain ⟨d, hd, _, hlen, hout⟩ := digit_loop_output cv.radix neg.1 hr8 hr16 hm
  obtain ⟨hL1, hL11⟩ := base_repr_length cv.radix neg.1 hr8 hm
  have hdl : (digits_text cv lower_case neg.1).length = d.length := by
    simp [digits_text, hlen]
  have hwidth : 1 ≤ (if cv.width = 0 then 1 else cv.width) ∧
      (if cv.width = 0 then 1 else cv.width) < 256 := by
    split_ifs <;> omega
  have hout2 : ∀ o, output_digits lower_case d.length d o =
      some (emit (digits_text cv lower_case neg.1) o) := by
    intro o
    rw [hout]
    simp [emit, digits_text]
  have hd0 : d.length ≠ 0 := by omega
  simp only [hd, hout2]
  unfold field_text
  simp only [hdl]
  generalize (if cv.width = 0 then 1 else cv.width) = w at hwidth
  obtain ⟨hw1, hw256⟩ := hwidth
  have hs : (sign_text cv neg.2).length ≤ 1 := by
    unfold sign_text
    split_ifs <;> simp
  cases hlj : cv.left_justify
  · cases hzp : cv.zero_padding
    · have hmin : 1 ≤ min w ((d.length + 1) % 256) ∧ min w ((d.length + 1) % 256) < 256 := by
        omega
      simp only [lead_step, pad_step, trail_step, hlj, hzp, Bool.not_false, Bool.and_self,
        if_true, Bool.false_eq_true, if_false, lead_spaces_eq,
        sign_step_eq cv neg.2 d.length _ _ hd0 hmin.1 hmin.2, pad_loop_snd, emit_emit]
      have hd11 : d.length ≤ 11 := by omega
      generalize sign_text cv neg.2 = sg at hs ⊢
      match sg, hs with
      | [], _ =>
        simp only [List.append_nil, List.length_nil, Nat.sub_zero,
          List.append_replicate_replicate]
        rw [show w - (d.length + 1) % 256 + (min w ((d.length + 1) % 256) - d.length)
          = w - d.length by omega]
      | [c], _ =>
        simp only [List.length_singleton]
        rw [show min w ((d.length + 1) % 256) - 1 - d.length = 0 by omega,
          show w - (d.length + 1) % 256 = w - 1 - d.length by omega]
        simp
      | _ :: _ :: _, h => simp at h
    · simp only [lead_step, pad_step, trail_step, hlj, hzp, Bool.not_false, Bool.not_true,
        Bool.false_and, Bool.and_false, Bool.and_true,
        if_true, Bool.false_eq_true, if_false,
        sign_step_eq cv neg.2 d.length _ _ hd0 hw1 hw256, pad_loop_snd, emit_emit]
  · simp only [lead_step, pad_step, trail_step, hlj, Bool.not_false, Bool.not_true,
        Bool.false_and, Bool.and_false, Bool.and_true,
        if_true, Bool.false_eq_true, if_false,
        sign_step_eq cv neg.2 d.length _ _ hd0 hw1 hw256, space_loop_snd, emit_emit]
    have e : (if w - (sign_text cv neg.2).length > d.length then
        w - (sign_text cv neg.2).length - d.length else 0)
        = w - (sign_text cv neg.2).length - d.length := by
      split_ifs <;> omega
    rw [e]

/-! ## Parsing of width and precision literals -/

set_option maxRecDepth 100000 in
theorem decimal_literal_digits :
    ∀ n, n < 256 → ∀ c ∈ decimal_literal n, isdigit c = true := by
  decide

set_option maxRecDepth 100000 in
theorem width_after_literal :
    ∀ n, n < 256 → 1 ≤ n →
      width_after (0, false) (decimal_literal n) = (n, false) ∧
      width_after (0, true) (decimal_literal n) = (n, true) := by
  decide

set_option maxRecDepth 100000 in
theorem decimals_after_literal :
    ∀ n, n < 128 → decimals_after 0 (decimal_literal n) = (n : Int) := by
  decide

theorem decimals_set_literal :
    ∀ n, n < 128 → decimals_set 0 (decimal_literal n) = true := by
  decide

theorem get_conversion_spec_width (c : Nat) (cv : Conv) (ap : List Arg) (o : Out)
    (hc : isdigit c = true) (hdec : cv.decimals = -1) :
    get_conversion_spec c cv ap o =
      some (some { cv with
              width := (10 * cv.width + c - 48) % 256,
              zero_padding :=
                if (10 * cv.width + c - 48) % 256 = 0 then true else cv.zero_padding },
            ap, o) := by
  have h37 : c ≠ 37 := by
    intro h; subst h; simp [isdigit] at hc
  simp [get_conversion_spec, h37, hc, hdec]

theorem get_conversion_spec_decimals (c : Nat) (cv : Conv) (ap : List Arg) (o : Out)
    (hc : isdigit c = true) (hdec : cv.decimals ≠ -1) :
    get_conversion_spec c cv ap o =
      some (some { cv with decimals := toSChar (10 * cv.decimals + c - 48) }, ap, o) := by
  have h37 : c ≠ 37 := by
    intro h; subst h; simp [isdigit] at hc
  simp [get_conversion_spec, h37, hc, hdec]

/-- The digits of a width field are consumed into `width` and
`zero_padding`. -/
theorem format_loop_width : ∀ (ds rest : List Nat) (cv : Conv) (ap : List Arg) (o : Out),
    (∀ c ∈ ds, isdigit c = true) → cv.decimals = -1 →
    format_loop (ds ++ rest) (some cv) ap o =
      format_loop rest
        (some { cv with
          width := (width_after (cv.width, cv.zero_padding) ds).1,
          zero_padding := (width_after (cv.width, cv.zero_padding) ds).2 }) ap o := by
  intro ds
  induction ds with
  | nil => intro rest cv ap o _ _; rfl
  | cons c ds ih =>
    intro rest cv ap o hd hdec
    have hc : isdigit c = true := hd c (List.mem_cons_self _ _)
    have hds : ∀ x ∈ ds, isdigit x = true := fun x hx => hd x (List.mem_cons_of_mem _ hx)
    simp only [List.cons_append, format_loop, get_conversion_spec_width c cv ap o hc hdec]
    rw [show ds.append rest = ds ++ rest from rfl]
    refine (ih rest _ ap o hds ?_).trans ?_
    · exact hdec
    · rfl

/-- The digits of a precision field are consumed into `decimals`. -/
theorem format_loop_decimals : ∀ (ds rest : List Nat) (cv : Conv) (ap : List Arg)
    (o : Out), (∀ c ∈ ds, isdigit c = true) → decimals_set cv.decimals ds = true →
    format_loop (ds ++ rest) (some cv) ap o =
      format_loop rest (some { cv with decimals := decimals_after cv.decimals ds }) ap o := by
  intro ds
  induction ds with
  | nil => intro rest cv ap o _ _; rfl
  | cons c ds ih =>
    intro rest cv ap o hd hset
    have hc : isdigit c = true := hd c (List.mem_cons_self _ _)
    have hds : ∀ x ∈ ds, isdigit x = true := fun x hx => hd x (List.mem_cons_of_mem _ hx)
    simp only [decimals_set, Bool.and_eq_true, decide_eq_true_eq] at hset
    simp only [List.cons_append, format_loop,
      get_conversion_spec_decimals c cv ap o hc hset.1]
    rw [show ds.append rest = ds ++ rest from rfl]
    refine (ih rest _ ap o hds ?_).trans ?_
    · exact hset.2
    · rfl

/-! ## Flags, length modifiers and the conversion letter -/

theorem get_conversion_spec_flag (c : Nat) (cv : Conv) (ap : List Arg) (o : Out)
    (hc : is_flag c = true) :
    get_conversion_spec c cv ap o = some (some (flag_step cv c), ap, o) := by
  simp only [is_flag, List.mem_cons, List.mem_singleton, decide_eq_true_eq,
    List.not_mem_nil, or_false] at hc
  rcases hc with h | h | h | h | h | h | h | h | h | h | h | h | h | h | h <;>
    subst h <;> rfl

theorem format_loop_flags : ∀ (fl rest : List Nat) (cv : Conv) (ap : List Arg) (o : Out),
    (∀ c ∈ fl, is_flag c = true) →
    format_loop (fl ++ rest) (some cv) ap o =
      format_loop rest (some (fl.foldl flag_step cv)) ap o := by
  intro fl
  induction fl with
  | nil => intro rest cv ap o _; rfl
  | cons c fl ih =>
    intro rest cv ap o hfl
    have hc : is_flag c = true := hfl c (List.mem_cons_self _ _)
    have hrest : ∀ x ∈ fl, is_flag x = true := fun x hx => hfl x (List.mem_cons_of_mem _ hx)
    simp only [List.cons_append, format_loop, get_conversion_spec_flag c cv ap o hc,
      List.foldl_cons]
    exact ih rest _ ap o hrest

/-- Flags and length modifiers leave width, precision, zero padding, sign,
float and radix alone. -/
theorem foldl_flag_step_keeps : ∀ (fl : List Nat) (cv : Conv),
    (fl.foldl flag_step cv).width = cv.width ∧
    (fl.foldl flag_step cv).decimals = cv.decimals ∧
    (fl.foldl flag_step cv).zero_padding = cv.zero_padding ∧
    (fl.foldl flag_step cv).signed_argument = cv.signed_argument ∧
    (fl.foldl flag_step cv).float_argument = cv.float_argument ∧
    (fl.foldl flag_step cv).radix = cv.radix := by
  intro fl
  induction fl with
  | nil => intro cv; simp
  | cons c fl ih =>
    intro cv
    have h := ih (flag_step cv c)
    simp only [List.foldl_cons]
    unfold flag_step at h ⊢
    split_ifs at h ⊢ <;> exact h

theorem foldl_flag_step_sign : ∀ (fl : List Nat) (cv : Conv),
    (fl.foldl flag_step cv).prefix_sign = (cv.prefix_sign || decide (43 ∈ fl)) ∧
    (fl.foldl flag_step cv).prefix_space = (cv.prefix_space || decide (32 ∈ fl)) ∧
    (fl.foldl flag_step cv).left_justify = (cv.left_justify || decide (45 ∈ fl)) := by
  intro fl
  induction fl with
  | nil => intro cv; simp
  | cons c fl ih =>
    intro cv
    have h := ih (flag_step cv c)
    simp only [List.foldl_cons, h]
    unfold flag_step
    split_ifs with h1 h2 h3 h4 h5
    · subst h1; simp
    · subst h2; simp
    · subst h3; simp
    · have e1 : ¬ 43 = c := fun e => h2 e.symm
      have e2 : ¬ 32 = c := fun e => h3 e.symm
      have e3 : ¬ 45 = c := fun e => h1 e.symm
      simp [e1, e2, e3]
    · have e1 : ¬ 43 = c := fun e => h2 e.symm
      have e2 : ¬ 32 = c := fun e => h3 e.symm
      have e3 : ¬ 45 = c := fun e => h1 e.symm
      simp [e1, e2, e3]
    · have e1 : ¬ 43 = c := fun e => h2 e.symm
      have e2 : ¬ 32 = c := fun e => h3 e.symm
      have e3 : ¬ 45 = c := fun e => h1 e.symm
      simp [e1, e2, e3]

/-- Without `B` among the flags, `char_argument` stays as it was. -/
theorem foldl_flag_step_char : ∀ (fl : List Nat) (cv : Conv), 66 ∉ fl → 98 ∉ fl →
    (fl.foldl flag_step cv).char_argument = cv.char_argument := by
  intro fl
  induction fl with
  | nil => intro cv _ _; rfl
  | cons c fl ih =>
    intro cv h66 h98
    simp only [List.mem_cons, not_or] at h66 h98
    have e1 : ¬ c = 66 := fun e => h66.1 e.symm
    have e2 : ¬ c = 98 := fun e => h98.1 e.symm
    simp only [List.foldl_cons]
    rw [ih (flag_step cv c) h66.2 h98.2]
    unfold flag_step
    split_ifs with h1 h2 h3 h4 h5
    · rfl
    · rfl
    · rfl
    · rcases h4 with h | h
      · exact absurd h e1
      · exact absurd h e2
    · rfl
    · rfl

/-- With `B` among the flags, `char_argument` is set. -/
theorem foldl_flag_step_char_set : ∀ (fl : List Nat) (cv : Conv), (66 ∈ fl ∨ 98 ∈ fl) →
    (fl.foldl flag_step cv).char_argument = true := by
  intro fl
  induction fl with
  | nil => intro cv h; simp at h
  | cons c fl ih =>
    intro cv h
    simp only [List.foldl_cons]
    by_cases hin : 66 ∈ fl ∨ 98 ∈ fl
    · exact ih _ hin
    · have hc : c = 66 ∨ c = 98 := by
        simp only [List.mem_cons, not_or] at h hin
        rcases h with (h | h) | (h | h)
        · exact Or.inl h.symm
        · exact absurd h hin.1
        · exact Or.inr h.symm
        · exact absurd h hin.2
      simp only [not_or] at hin
      rw [foldl_flag_step_char fl _ hin.1 hin.2]
      unfold flag_step
      rcases hc with h | h <;> subst h <;> rfl

theorem get_conversion_spec_integer (c : Nat) (cv : Conv) (ap : List Arg) (o : Out)
    (hc : is_integer_conversion c = true) (hs : cv.signed_argument = false) :
    get_conversion_spec c cv ap o =
      finish { cv with signed_argument := conversion_signed c,
                       radix := conversion_radix c } (islower c) ap o := by
  obtain ⟨lj, zp, ps, psp, sa, ca, la, fa, rx, wd, dc⟩ := cv
  simp only at hs
  subst hs
  simp only [is_integer_conversion, List.mem_cons, List.mem_singleton, decide_eq_true_eq,
    List.not_mem_nil, or_false] at hc
  rcases hc with h | h | h | h | h | h | h | h | h | h <;> subst h <;> rfl

theorem conversion_radix_range (c : Nat) :
    conversion_radix c = 8 ∨ conversion_radix c = 10 ∨ conversion_radix c = 16 := by
  unfold conversion_radix
  split_ifs <;> simp

/-! ## A complete integer conversion -/

theorem width_after_cons (s : Nat × Bool) (c : Nat) (ds : List Nat) :
    width_after s (c :: ds) =
      width_after ((10 * s.1 + c - 48) % 256,
        if (10 * s.1 + c - 48) % 256 = 0 then true else s.2) ds := rfl

theorem width_field_after (zp : Bool) (w : Nat) (hw : w < 256) :
    (∀ c ∈ (if zp then [48] else []) ++ (if w = 0 then [] else decimal_literal w),
      isdigit c = true) ∧
    width_after (0, false)
      ((if zp then [48] else []) ++ (if w = 0 then [] else decimal_literal w)) = (w, zp) := by
  have hl := decimal_literal_digits w hw
  by_cases hw0 : w = 0
  · subst hw0
    cases zp <;> decide
  · have hlit := width_after_literal w hw (by omega)
    generalize decimal_literal w = lit at hl hlit ⊢
    cases zp
    · simp only [Bool.false_eq_true, if_false, hw0, List.nil_append]
      exact ⟨hl, hlit.1⟩
    · simp only [if_true, hw0, if_false, List.singleton_append, List.mem_cons]
      refine ⟨?_, ?_⟩
      · intro c hc
        rcases hc with h | h
        · subst h; rfl
        · exact hl c h
      · rw [width_after_cons]
        exact hlit.2

/-- A specification `%`, flags and length modifiers other than `B`, optional
`0`, width, integer conversion letter: the call returns, consumes one integer
argument and emits `field_text` of the magnitude fetched. -/
theorem integer_conversion_eq (fl : List Nat) (zp : Bool) (w c : Nat) (v : Int)
    (ap : List Arg) (hfl : ∀ x ∈ fl, is_flag x = true) (h66 : 66 ∉ fl) (h98 : 98 ∉ fl)
    (hw : w < 256) (hc : is_integer_conversion c = true) :
    _print_format (integer_template fl zp w c) (Arg.int v :: ap) =
      some (ap, emit (field_text (integer_conv fl zp w c) (islower c)
        (negate (conversion_signed c) (masked (integer_conv fl zp w c) v)).2
        (negate (conversion_signed c) (masked (integer_conv fl zp w c) v)).1)
        { chars := [], charsOutputted := 0 }) := by
  obtain ⟨hdig, hwa⟩ := width_field_after zp w hw
  obtain ⟨k1, k2, k3, k4, k5, k6⟩ := foldl_flag_step_keeps fl Conv.init
  have e : integer_template fl zp w c ++ [0] =
      37 :: (fl ++ (((if zp then [48] else []) ++ (if w = 0 then [] else decimal_literal w))
        ++ [c, 0])) := by
    simp [integer_template]
  unfold _print_format
  rw [e]
  have h37 : (37 : Nat) ≠ 0 := by decide
  simp only [format_loop, h37, if_false, if_true]
  rw [format_loop_flags fl _ _ _ _ hfl, format_loop_width _ _ _ _ _ hdig k2]
  simp only [k1, k3]
  rw [show (Conv.init.width, Conv.init.zero_padding) = (0, false) from rfl, hwa]
  simp only [format_loop]
  have hg := get_conversion_spec_integer c
    { (fl.foldl flag_step Conv.init) with width := w, zero_padding := zp }
    (Arg.int v :: ap) { chars := [], charsOutputted := 0 } hc k4
  rw [hg]
  have hcv : ({ (fl.foldl flag_step Conv.init) with
      zero_padding := zp, width := w, signed_argument := conversion_signed c,
      radix := conversion_radix c } : Conv) = integer_conv fl zp w c := rfl
  simp only [hcv]
  have hrad := conversion_radix_range c
  have hr : (integer_conv fl zp w c).radix = conversion_radix c := rfl
  have hf : (integer_conv fl zp w c).float_argument = false := k5
  have hsg : (integer_conv fl zp w c).signed_argument = conversion_signed c := rfl
  have hwd : (integer_conv fl zp w c).width = w := rfl
  have hca : (integer_conv fl zp w c).char_argument = false :=
    foldl_flag_step_char fl Conv.init h66 h98
  have hpi := print_integer_eq (integer_conv fl zp w c) (islower c) v ap
    { chars := [], charsOutputted := 0 } (by rw [hr]; omega) (by rw [hr]; omega)
    (by rw [hwd]; exact hw) hca
  have hr0 : (integer_conv fl zp w c).radix ≠ 0 := by rw [hr]; omega
  simp only [finish, after_switch, hf, Bool.false_eq_true, if_false, hr0, ne_eq,
    not_false_eq_true, if_true, hpi, hsg, format_loop]

/-! ## Magnitudes and digit characters -/

theorem negate_masked_signed (cv : Conv) (v : Int) (hs : cv.signed_argument = true)
    (hlo : -2147483648 ≤ v) (hhi : v < 2147483648) :
    negate true (masked cv v) = (v.natAbs, decide (v < 0)) := by
  have hf : masked cv v = toU32 v := by
    unfold masked
    simp [hs]
  rw [hf]
  unfold negate toU32
  by_cases hneg : v < 0
  · have h1 : (v % 4294967296).toNat ≥ 2147483648 := by omega
    have h2 : (4294967296 - (v % 4294967296).toNat) % 4294967296 = v.natAbs := by omega
    simp [h1, h2, hneg]
  · have h1 : ¬ (v % 4294967296).toNat ≥ 2147483648 := by omega
    have h2 : (v % 4294967296).toNat = v.natAbs := by omega
    have h3 : ¬ v.natAbs ≥ 2147483648 := by omega
    simp only [if_true, h2, h3, if_false, hneg, decide_False]

theorem digit_char_decimal (lower_case : Bool) :
    ∀ x, x < 10 → digit_char x lower_case = x + 48 := by
  cases lower_case <;> decide

theorem digit_char_hex :
    ∀ x, x < 16 → digit_char x false = hex_upper x ∧ digit_char x true = hex_lower x := by
  decide

theorem digits_text_decimal (cv : Conv) (lower_case : Bool) (m : Nat)
    (hr : cv.radix = 10) : digits_text cv lower_case m = decimal_text m := by
  unfold digits_text decimal_text
  rw [hr]
  apply List.map_congr_left
  intro x hx
  exact digit_char_decimal lower_case x (base_repr_lt 10 m (by omega) x hx)

theorem decimal_text_length (m : Nat) : (decimal_text m).length = (base_repr 10 m).length := by
  simp [decimal_text]

/-! ## Width, justification and zero padding of decimal fields -/

/-- `%wD` and `%-wD` of a non-negative value, in terms of `decimal_text`. -/
theorem width_pads_decimal_text (v : Int) (w : Nat) (ap : List Arg)
    (hv0 : 0 ≤ v) (hv : v < 2147483648) (hw1 : 1 ≤ w) (hw : w ≤ 255) :
    _print_format (bytes "%" ++ decimal_literal w ++ bytes "D") (Arg.int v :: ap) =
      some (ap, emit (List.replicate (w - (decimal_text v.toNat).length) 32 ++
        decimal_text v.toNat) { chars := [], charsOutputted := 0 }) ∧
    _print_format (bytes "%-" ++ decimal_literal w ++ bytes "D") (Arg.int v :: ap) =
      some (ap, emit (decimal_text v.toNat ++
        List.replicate (w - (decimal_text v.toNat).length) 32)
        { chars := [], charsOutputted := 0 }) := by
  have hw0 : w ≠ 0 := by omega
  have habs : v.natAbs = v.toNat := by omega
  have hneg : decide (v < 0) = false := by simpa using hv0
  refine ⟨?_, ?_⟩
  · have t : bytes "%" ++ decimal_literal w ++ bytes "D" = integer_template [] false w 68 := by
      simp only [integer_template, hw0, if_false, Bool.false_eq_true, List.nil_append]
      rfl
    have hn := negate_masked_signed (integer_conv [] false w 68) v rfl (by omega) hv
    rw [t, integer_conversion_eq [] false w 68 v ap (by simp) (by simp) (by simp) (by omega)
        (by decide),
      show conversion_signed 68 = true from rfl, hn, habs, hneg]
    have hd := digits_text_decimal (integer_conv [] false w 68) (islower 68) v.toNat rfl
    simp only [field_text, hd, sign_text,
      show (integer_conv [] false w 68).left_justify = false from rfl,
      show (integer_conv [] false w 68).zero_padding = false from rfl,
      show (integer_conv [] false w 68).prefix_sign = false from rfl,
      show (integer_conv [] false w 68).prefix_space = false from rfl,
      show (integer_conv [] false w 68).width = w from rfl,
      hw0, if_false, Bool.false_eq_true, List.length_nil, Nat.sub_zero, List.append_nil]
  · have t : bytes "%-" ++ decimal_literal w ++ bytes "D" = integer_template [45] false w 68 := by
      simp only [integer_template, hw0, if_false, Bool.false_eq_true, List.nil_append]
      rfl
    have hn := negate_masked_signed (integer_conv [45] false w 68) v rfl (by omega) hv
    rw [t, integer_conversion_eq [45] false w 68 v ap (by decide) (by decide) (by decide)
        (by omega) (by decide),
      show conversion_signed 68 = true from rfl, hn, habs, hneg]
    have hd := digits_text_decimal (integer_conv [45] false w 68) (islower 68) v.toNat rfl
    simp only [field_text, hd, sign_text,
      show (integer_conv [45] false w 68).left_justify = true from rfl,
      show (integer_conv [45] false w 68).prefix_sign = false from rfl,
      show (integer_conv [45] false w 68).prefix_space = false from rfl,
      show (integer_conv [45] false w 68).width = w from rfl,
      hw0, if_false, if_true, Bool.false_eq_true, List.length_nil, Nat.sub_zero,
      List.nil_append]

set_option maxRecDepth 100000 in
/-- C4: for `0 ≤ v < 2^31` and a width `1 ≤ w ≤ 255` written without leading
zero, where `L` is the number of decimal digits of `v`: `%wD` emits
`max 0 (w - L)` spaces and then the decimal digits of `v` (the characters of
the numeral as the library prints it), `%-wD` emits the digits and then
`max 0 (w - L)` spaces, and nothing else; `%5D` and `%-5D` of 42 give
`"   42"` and `"42   "`. -/
theorem width_pads_decimal (v : Int) (w : Nat) (ap : List Arg)
    (hv0 : 0 ≤ v) (hv : v < 2147483648) (hw1 : 1 ≤ w) (hw : w ≤ 255) :
    _print_format (bytes "%" ++ decimal_literal w ++ bytes "D") (Arg.int v :: ap) =
      some (ap, emit (List.replicate (w - (bytes (Nat.repr v.toNat)).length) 32 ++
        bytes (Nat.repr v.toNat)) { chars := [], charsOutputted := 0 }) ∧
    _print_format (bytes "%-" ++ decimal_literal w ++ bytes "D") (Arg.int v :: ap) =
      some (ap, emit (bytes (Nat.repr v.toNat) ++
        List.replicate (w - (bytes (Nat.repr v.toNat)).length) 32)
        { chars := [], charsOutputted := 0 }) ∧
    _print_format (bytes "%5D") [Arg.int 42] =
      some ([], { chars := bytes "   42", charsOutputted := 5 }) ∧
    _print_format (bytes "%-5D") [Arg.int 42] =
      some ([], { chars := bytes "42   ", charsOutputted := 5 }) := by
  obtain ⟨h1, h2⟩ := width_pads_decimal_text v w ap hv0 hv hw1 hw
  rw [decimal_text_eq_repr] at h1 h2
  exact ⟨h1, h2, by decide, by decide⟩

/-- C4 at `v = 42`, `w = 5`. -/
theorem width_pads_decimal_witness :
    ((0 : Int) ≤ 42 ∧ (42 : Int) < 2147483648 ∧ 1 ≤ 5 ∧ 5 ≤ 255) ∧
    (_print_format (bytes "%" ++ decimal_literal 5 ++ bytes "D") (Arg.int 42 :: []) =
      some ([], emit (List.replicate (5 - (bytes (Nat.repr (42 : Int).toNat)).length) 32 ++
        bytes (Nat.repr (42 : Int).toNat)) { chars := [], charsOutputted := 0 }) ∧
    _print_format (bytes "%-" ++ decimal_literal 5 ++ bytes "D") (Arg.int 42 :: []) =
      some ([], emit (bytes (Nat.repr (42 : Int).toNat) ++
        List.replicate (5 - (bytes (Nat.repr (42 : Int).toNat)).length) 32)
        { chars := [], charsOutputted := 0 }) ∧
    _print_format (bytes "%5D") [Arg.int 42] =
      some ([], { chars := bytes "   42", charsOutputted := 5 }) ∧
    _print_format (bytes "%-5D") [Arg.int 42] =
      some ([], { chars := bytes "42   ", charsOutputted := 5 })) :=
  ⟨⟨by decide, by decide, by decide, by decide⟩,
    width_pads_decimal 42 5 [] (by decide) (by decide) (by decide) (by decide)⟩

/-- `%0wD` in terms of `decimal_text`. -/
theorem zero_padding_decimal_text (v : Int) (w : Nat) (ap : List Arg)
    (hlo : -2147483648 ≤ v) (hhi : v < 2147483648) (hw1 : 1 ≤ w) (hw : w ≤ 255) :
    _print_format (bytes "%0" ++ decimal_literal w ++ bytes "D") (Arg.int v :: ap) =
      some (ap, emit
        (if v < 0 then
          45 :: (List.replicate (w - 1 - (decimal_text v.natAbs).length) 48 ++
            decimal_text v.natAbs)
         else
          List.replicate (w - (decimal_text v.natAbs).length) 48 ++ decimal_text v.natAbs)
        { chars := [], charsOutputted := 0 }) := by
  have hw0 : w ≠ 0 := by omega
  have t : bytes "%0" ++ decimal_literal w ++ bytes "D" = integer_template [] true w 68 := by
    simp only [integer_template, hw0, if_false, if_true, List.nil_append]
    rfl
  have hn := negate_masked_signed (integer_conv [] true w 68) v rfl hlo hhi
  rw [t, integer_conversion_eq [] true w 68 v ap (by simp) (by simp) (by simp) (by omega)
      (by decide),
    show conversion_signed 68 = true from rfl, hn]
  have hd := digits_text_decimal (integer_conv [] true w 68) (islower 68) v.natAbs rfl
  simp only [field_text, hd, sign_text,
    show (integer_conv [] true w 68).left_justify = false from rfl,
    show (integer_conv [] true w 68).zero_padding = true from rfl,
    show (integer_conv [] true w 68).prefix_sign = false from rfl,
    show (integer_conv [] true w 68).prefix_space = false from rfl,
    show (integer_conv [] true w 68).width = w from rfl,
    hw0, if_false, if_true, Bool.false_eq_true]
  by_cases hneg : v < 0
  · simp [hneg]
  · simp [hneg]

set_option maxRecDepth 100000 in
/-- C5: for `-2^31 ≤ v < 2^31` and a width `1 ≤ w ≤ 255`, where `L` is the
number of decimal digits of `|v|`: `%0wD` emits, for `v ≥ 0`, `max 0 (w - L)`
zeros and the decimal digits of `v`; for `v < 0`, a `-`, then
`max 0 (w - 1 - L)` zeros, then the digits of `|v|`.  The zeros stand between
sign and digits and no space is emitted; `%05D` of 42 gives `"00042"`. -/
theorem zero_padding_decimal (v : Int) (w : Nat) (ap : List Arg)
    (hlo : -2147483648 ≤ v) (hhi : v < 2147483648) (hw1 : 1 ≤ w) (hw : w ≤ 255) :
    _print_format (bytes "%0" ++ decimal_literal w ++ bytes "D") (Arg.int v :: ap) =
      some (ap, emit
        (if v < 0 then
          45 :: (List.replicate (w - 1 - (bytes (Nat.repr v.natAbs)).length) 48 ++
            bytes (Nat.repr v.natAbs))
         else
          List.replicate (w - (bytes (Nat.repr v.natAbs)).length) 48 ++
            bytes (Nat.repr v.natAbs))
        { chars := [], charsOutputted := 0 }) ∧
    _print_format (bytes "%05D") [Arg.int 42] =
      some ([], { chars := bytes "00042", charsOutputted := 5 }) ∧
    _print_format (bytes "%05D") [Arg.int (-42)] =
      some ([], { chars := bytes "-0042", charsOutputted := 5 }) := by
  have h := zero_padding_decimal_text v w ap hlo hhi hw1 hw
  rw [decimal_text_eq_repr] at h
  exact ⟨h, by decide, by decide⟩

/-- C5 at `v = -42`, `w = 5`. -/
theorem zero_padding_decimal_witness :
    ((-2147483648 : Int) ≤ -42 ∧ (-42 : Int) < 2147483648 ∧ 1 ≤ 5 ∧ 5 ≤ 255) ∧
    (_print_format (bytes "%0" ++ decimal_literal 5 ++ bytes "D") (Arg.int (-42) :: []) =
      some ([], emit
        (if (-42 : Int) < 0 then
          45 :: (List.replicate (5 - 1 - (bytes (Nat.repr (-42 : Int).natAbs)).length) 48 ++
            bytes (Nat.repr (-42 : Int).natAbs))
         else
          List.replicate (5 - (bytes (Nat.repr (-42 : Int).natAbs)).length) 48 ++
            bytes (Nat.repr (-42 : Int).natAbs))
        { chars := [], charsOutputted := 0 }) ∧
    _print_format (bytes "%05D") [Arg.int 42] =
      some ([], { chars := bytes "00042", charsOutputted := 5 }) ∧
    _print_format (bytes "%05D") [Arg.int (-42)] =
      some ([], { chars := bytes "-0042", charsOutputted := 5 })) :=
  ⟨⟨by decide, by decide, by decide, by decide⟩,
    zero_padding_decimal (-42) 5 [] (by decide) (by decide) (by decide) (by decide)⟩

/-! ## The sign character -/

theorem field_text_layout (cv : Conv) (lower_case negative : Bool) (m : Nat) :
    field_text cv lower_case negative m =
      field_layout cv.left_justify cv.zero_padding cv.width (sign_text cv negative)
        (digits_text cv lower_case m) := by
  unfold field_text field_layout
  cases cv.left_justify <;> cases cv.zero_padding <;> simp

theorem digits_text_hex (cv : Conv) (m : Nat) (hr : cv.radix = 16) :
    digits_text cv false m = (base_repr 16 m).map hex_upper ∧
    digits_text cv true m = (base_repr 16 m).map hex_lower := by
  unfold digits_text
  rw [hr]
  constructor <;>
  · apply List.map_congr_left
    intro x hx
    have hx16 := base_repr_lt 16 m (by omega) x hx
    first
      | exact (digit_char_hex x hx16).1
      | exact (digit_char_hex x hx16).2

theorem masked_unsigned_int (cv : Conv) (v : Int) (hs : cv.signed_argument = false)
    (hl : cv.long_argument = false)
    (h0 : 0 ≤ v) (h1 : v ≤ 65535) : masked cv v = v.toNat := by
  unfold masked toU32
  simp only [hs, hl, Bool.false_eq_true, if_false, Bool.not_false, if_true]
  have e := Nat.and_pow_two_sub_one_eq_mod (v % 4294967296).toNat 16
  norm_num at e
  rw [e]
  omega

set_option maxRecDepth 100000 in
/-- C7: for `0 ≤ v ≤ 65535`, `%X` emits the hexadecimal representation of `v`
with the digits `0`-`9` and `A`-`F`, and `%x` the same digit sequence with
`a`-`f` for `A`-`F` (which is `v` as the library prints it in base 16); the
digits `0`-`9` are the same in both.  255 gives `FF` and `ff`. -/
theorem hex_upper_and_lower (v : Int) (ap : List Arg) (h0 : 0 ≤ v) (h1 : v ≤ 65535) :
    _print_format (bytes "%X") (Arg.int v :: ap) =
      some (ap, emit ((base_repr 16 v.toNat).map hex_upper)
        { chars := [], charsOutputted := 0 }) ∧
    _print_format (bytes "%x") (Arg.int v :: ap) =
      some (ap, emit ((base_repr 16 v.toNat).map hex_lower)
        { chars := [], charsOutputted := 0 }) ∧
    (base_repr 16 v.toNat).map hex_lower = (Nat.toDigits 16 v.toNat).map Char.toNat ∧
    (∀ d, d < 10 → hex_upper d = 48 + d ∧ hex_lower d = 48 + d) ∧
    (∀ d, 10 ≤ d → d < 16 → hex_upper d = 65 + (d - 10) ∧ hex_lower d = 97 + (d - 10)) ∧
    _print_format (bytes "%X") [Arg.int 255] =
      some ([], { chars := bytes "FF", charsOutputted := 2 }) ∧
    _print_format (bytes "%x") [Arg.int 255] =
      some ([], { chars := bytes "ff", charsOutputted := 2 }) := by
  refine ⟨?_, ?_, hex_lower_eq_toDigits _, by decide, by decide, by decide, by decide⟩
  · have t : bytes "%X" = integer_template [] false 0 88 := by decide
    have hf := masked_unsigned_int (integer_conv [] false 0 88) v rfl rfl h0 h1
    have hL := (base_repr_length 16 v.toNat (by omega) (by omega)).1
    rw [t, integer_conversion_eq [] false 0 88 v ap (by simp) (by simp) (by simp) (by omega)
        (by decide),
      show conversion_signed 88 = false from rfl, hf, show islower 88 = false from rfl]
    simp only [negate, Bool.false_eq_true, if_false, field_text, sign_text,
      (digits_text_hex (integer_conv [] false 0 88) v.toNat rfl).1,
      show (integer_conv [] false 0 88).left_justify = false from rfl,
      show (integer_conv [] false 0 88).zero_padding = false from rfl,
      show (integer_conv [] false 0 88).prefix_sign = false from rfl,
      show (integer_conv [] false 0 88).prefix_space = false from rfl,
      show (integer_conv [] false 0 88).width = 0 from rfl,
      if_true, List.length_nil, Nat.sub_zero, List.append_nil, List.length_map]
    rw [show 1 - (base_repr 16 v.toNat).length = 0 by omega]
    rfl
  · have t : bytes "%x" = integer_template [] false 0 120 := by decide
    have hf := masked_unsigned_int (integer_conv [] false 0 120) v rfl rfl h0 h1
    have hL := (base_repr_length 16 v.toNat (by omega) (by omega)).1
    rw [t, integer_conversion_eq [] false 0 120 v ap (by simp) (by simp) (by simp) (by omega)
        (by decide),
      show conversion_signed 120 = false from rfl, hf, show islower 120 = true from rfl]
    simp only [negate, Bool.false_eq_true, if_false, field_text, sign_text,
      (digits_text_hex (integer_conv [] false 0 120) v.toNat rfl).2,
      show (integer_conv [] false 0 120).left_justify = false from rfl,
      show (integer_conv [] false 0 120).zero_padding = false from rfl,
      show (integer_conv [] false 0 120).prefix_sign = false from rfl,
      show (integer_conv [] false 0 120).prefix_space = false from rfl,
      show (integer_conv [] false 0 120).width = 0 from rfl,
      if_true, List.length_nil, Nat.sub_zero, List.append_nil, List.length_map]
    rw [show 1 - (base_repr 16 v.toNat).length = 0 by omega]
    rfl

/-- C7 at `v = 48879` (`BEEF`). -/
theorem hex_upper_and_lower_witness :
    ((0 : Int) ≤ 48879 ∧ (48879 : Int) ≤ 65535) ∧
    (_print_format (bytes "%X") (Arg.int 48879 :: []) =
      some ([], emit ((base_repr 16 (48879 : Int).toNat).map hex_upper)
        { chars := [], charsOutputted := 0 }) ∧
    _print_format (bytes "%x") (Arg.int 48879 :: []) =
      some ([], emit ((base_repr 16 (48879 : Int).toNat).map hex_lower)
        { chars := [], charsOutputted := 0 }) ∧
    (base_repr 16 (48879 : Int).toNat).map hex_lower =
      (Nat.toDigits 16 (48879 : Int).toNat).map Char.toNat ∧
    (∀ d, d < 10 → hex_upper d = 48 + d ∧ hex_lower d = 48 + d) ∧
    (∀ d, 10 ≤ d → d < 16 → hex_upper d = 65 + (d - 10) ∧ hex_lower d = 97 + (d - 10)) ∧
    _print_format (bytes "%X") [Arg.int 255] =
      some ([], { chars := bytes "FF", charsOutputted := 2 }) ∧
    _print_format (bytes "%x") [Arg.int 255] =
      some ([], { chars := bytes "ff", charsOutputted := 2 })) :=
  ⟨⟨by decide, by decide⟩, hex_upper_and_lower 48879 [] (by decide) (by decide)⟩

/-! ## String conversions -/

theorem strlen_eq_length : ∀ (s : List Nat), 0 ∉ s → strlen s = s.length := by
  intro s
  induction s with
  | nil => intro _; rfl
  | cons c s ih =>
    intro h
    simp only [List.mem_cons, not_or] at h
    have hc : c ≠ 0 := fun e => h.1 e.symm
    simp [strlen, hc, ih h.2]

theorem takeWhile_no_nul : ∀ (s : List Nat), 0 ∉ s →
    (s.takeWhile fun c => decide (c ≠ 0)) = s := by
  intro s
  induction s with
  | nil => intro _; rfl
  | cons c s ih =>
    intro h
    simp only [List.mem_cons, not_or] at h
    have hc : c ≠ 0 := fun e => h.1 e.symm
    rw [List.takeWhile_cons_of_pos (by simpa using hc), ih h.2]

theorem width_only_after (w : Nat) (hw : w < 256) :
    (∀ c ∈ (if w = 0 then [] else decimal_literal w), isdigit c = true) ∧
    width_after (0, false) (if w = 0 then [] else decimal_literal w) = (w, false) := by
  have h := width_field_after false w hw
  simpa using h

/-- A specification `%`, flags, width, optional precision, `S`: the call
returns, consumes one string argument and emits what `case 'S'` emits in the
conversion state `string_conv`. -/
theorem string_conversion_eq (fl : List Nat) (w : Nat) (p : Option Nat) (s : List Nat)
    (ap : List Arg) (hfl : ∀ x ∈ fl, is_flag x = true) (hw : w < 256)
    (hp : ∀ n, p = some n → n < 128) :
    _print_format (string_template fl w p) (Arg.str s :: ap) =
      some (ap, print_string (string_conv fl w p) s
        { chars := [], charsOutputted := 0 }) := by
  obtain ⟨hdig, hwa⟩ := width_only_after w hw
  obtain ⟨k1, k2, k3, k4, k5, k6⟩ := foldl_flag_step_keeps fl Conv.init
  have h37 : (37 : Nat) ≠ 0 := by decide
  have hS : ∀ (cv : Conv) (o : Out), cv.float_argument = false → cv.radix = 0 →
      format_loop [83, 0] (some cv) (Arg.str s :: ap) o =
        some (ap, print_string cv s o) := by
    intro cv o hf hr
    have hg : get_conversion_spec 83 cv (Arg.str s :: ap) o =
        finish cv false ap (print_string cv s o) := rfl
    simp only [format_loop, hg, finish, after_switch, hf, hr, Bool.false_eq_true,
      if_false, ne_eq, not_true_eq_false, if_true]
  cases p with
  | none =>
    have e : string_template fl w none ++ [0] =
        37 :: (fl ++ ((if w = 0 then [] else decimal_literal w) ++ [83, 0])) := by
      simp [string_template]
    unfold _print_format
    rw [e]
    simp only [format_loop, h37, if_false, if_true]
    rw [format_loop_flags fl _ _ _ _ hfl, format_loop_width _ _ _ _ _ hdig k2]
    simp only [k1, k3]
    rw [show (Conv.init.width, Conv.init.zero_padding) = (0, false) from rfl, hwa]
    simp only
    rw [hS { (fl.foldl flag_step Conv.init) with width := w, zero_padding := false } _ k5 k6]
    have hcv : ({ (fl.foldl flag_step Conv.init) with width := w, zero_padding := false }
        : Conv) = string_conv fl w none := by
      have hz : (fl.foldl flag_step Conv.init).zero_padding = false := k3
      have hd : (fl.foldl flag_step Conv.init).decimals = -1 := k2
      simp only [string_conv, ← hz, ← hd]
    simp only [hcv]
  | some n =>
    have hn : n < 128 := hp n rfl
    have hds := decimals_set_literal n hn
    have hda := decimals_after_literal n hn
    have hnd := decimal_literal_digits n (by omega)
    have e : string_template fl w (some n) ++ [0] =
        37 :: (fl ++ ((if w = 0 then [] else decimal_literal w) ++
          (46 :: (decimal_literal n ++ [83, 0])))) := by
      simp [string_template]
    unfold _print_format
    rw [e]
    simp only [format_loop, h37, if_false, if_true]
    rw [format_loop_flags fl _ _ _ _ hfl, format_loop_width _ _ _ _ _ hdig k2]
    simp only [k1, k3]
    rw [show (Conv.init.width, Conv.init.zero_padding) = (0, false) from rfl, hwa]
    have hdot : ∀ (cv : Conv) (ap : List Arg) (o : Out), cv.decimals = -1 →
        get_conversion_spec 46 cv ap o = some (some { cv with decimals := 0 }, ap, o) := by
      intro cv ap o hd
      simp [get_conversion_spec, isdigit, hd]
    simp only [format_loop,
      hdot { (fl.foldl flag_step Conv.init) with width := w, zero_padding := false } _ _ k2]
    rw [format_loop_decimals (decimal_literal n) [83, 0]
      { (fl.foldl flag_step Conv.init) with width := w, zero_padding := false, decimals := 0 }
      _ _ hnd hds]
    simp only
    rw [hda, hS { (fl.foldl flag_step Conv.init) with
      width := w, zero_padding := false, decimals := (n : Int) } _ k5 k6]
    have hcv : ({ (fl.foldl flag_step Conv.init) with
        width := w, zero_padding := false, decimals := (n : Int) } : Conv)
        = string_conv fl w (some n) := by
      have hz : (fl.foldl flag_step Conv.init).zero_padding = false := k3
      simp only [string_conv, ← hz]
    simp only [hcv]

theorem print_string_no_nul (cv : Conv) (s : List Nat) (o : Out) (h0 : 0 ∉ s) :
    print_string cv s o =
      emit ((if (!cv.left_justify && decide (s.length % 256 < cv.width)) = true then
              List.replicate (cv.width - s.length % 256) 32 else []) ++
            s.take (if cv.decimals = -1 then toSChar (s.length % 256)
              else cv.decimals).toNat ++
            (if (cv.left_justify && decide (s.length % 256 < cv.width)) = true then
              List.replicate (cv.width - s.length % 256) 32 else [])) o := by
  rw [print_string_eq, strlen_eq_length s h0, takeWhile_no_nul s h0]

theorem toSChar_small (n : Nat) (hn : n ≤ 127) : (toSChar ((n : Int) % 256)).toNat = n := by
  unfold toSChar
  omega

/-- `%S` without width and precision on a string of at most 127 characters:
the string is delivered whole and its length returned. -/
theorem plain_string_short (s : List Nat) (ap : List Arg) (h0 : 0 ∉ s)
    (hlen : s.length ≤ 127) :
    _print_format (bytes "%S") (Arg.str s :: ap) =
      some (ap, { chars := s, charsOutputted := s.length }) := by
  have t : bytes "%S" = string_template [] 0 none := by decide
  rw [t, string_conversion_eq [] 0 none s ap (by simp) (by omega) (by simp),
    print_string_no_nul _ s _ h0]
  simp only [show (string_conv [] 0 none).left_justify = false from rfl,
    show (string_conv [] 0 none).width = 0 from rfl,
    show (string_conv [] 0 none).decimals = -1 from rfl,
    Nat.not_lt_zero, decide_False, Bool.and_false, Bool.false_eq_true, if_false, if_true,
    List.nil_append, List.append_nil]
  simp [emit, toSChar_small s.length hlen]

set_option maxRecDepth 100000 in
/-- C8: on a string of 128 characters `%S` with no width and no precision
delivers nothing and returns 0, where the 128 characters are expected.  The
default precision `decimals = length` passes the length through the
`unsigned char length` into the `signed char decimals`, which makes it -128,
and the output loop `while (c && decimals-- > 0)` does not run.  Up to 127
characters the string is delivered whole (`plain_string_short`). -/
theorem plain_string_128_emits_nothing :
    0 ∉ List.replicate 128 65 ∧
    _print_format (bytes "%S") [Arg.str (List.replicate 128 65)] =
      some ([], { chars := [], charsOutputted := 0 }) ∧
    ¬ (_print_format (bytes "%S") [Arg.str (List.replicate 128 65)] =
      some ([], { chars := List.replicate 128 65,
                  charsOutputted := (List.replicate 128 65).length })) := by
  decide

/-- `%.nS` without width, for a precision literal `n ≤ 127` and a string of
any length: the first `min n (length s)` characters are delivered. -/
theorem precision_string (s : List Nat) (n : Nat) (ap : List Arg) (h0 : 0 ∉ s)
    (hn : n ≤ 127) :
    _print_format (bytes "%." ++ decimal_literal n ++ bytes "S") (Arg.str s :: ap) =
      some (ap, emit (s.take n) { chars := [], charsOutputted := 0 }) := by
  have t : bytes "%." ++ decimal_literal n ++ bytes "S" = string_template [] 0 (some n) := by
    simp only [string_template, if_true, List.nil_append]
    rfl
  have hd : (string_conv [] 0 (some n)).decimals = (n : Int) := rfl
  have hne : (n : Int) ≠ -1 := by omega
  rw [t, string_conversion_eq [] 0 (some n) s ap (by simp) (by omega)
    (by intro m hm; cases hm; omega), print_string_no_nul _ s _ h0]
  simp only [show (string_conv [] 0 (some n)).left_justify = false from rfl,
    show (string_conv [] 0 (some n)).width = 0 from rfl, hd, hne,
    Nat.not_lt_zero, decide_False, Bool.and_false, Bool.false_eq_true, if_false,
    List.nil_append, List.append_nil, Int.toNat_ofNat]

set_option maxRecDepth 100000 in
/-- C9: with an unset precision a string of 300 characters is cut to its
first 44 characters, where no truncation is expected: `length = strlen(PTR)`
keeps 300 mod 256 = 44 in the `unsigned char length`, and the default
precision `decimals = length` cuts the output there.  With a precision
literal the first `min n (length s)` characters are delivered, for every string
(`precision_string`). -/
theorem unset_precision_truncates_300 :
    0 ∉ List.replicate 300 66 ∧
    _print_format (bytes "%S") [Arg.str (List.replicate 300 66)] =
      some ([], { chars := List.replicate 44 66, charsOutputted := 44 }) ∧
    ¬ (_print_format (bytes "%S") [Arg.str (List.replicate 300 66)] =
      some ([], { chars := List.replicate 300 66,
                  charsOutputted := (List.replicate 300 66).length })) := by
  decide

set_option maxRecDepth 100000 in
/-- C10: for a string `s` of `n ≤ 127` characters and a width `1 ≤ w ≤ 255`
with no precision, `%wS` emits `max 0 (w - n)` spaces and then `s`, and `%-wS`
emits `s` and then `max 0 (w - n)` spaces; `%10S` of `hi` gives eight spaces
and `hi`. -/
theorem width_pads_string (s : List Nat) (w : Nat) (ap : List Arg) (h0 : 0 ∉ s)
    (hn : s.length ≤ 127) (hw1 : 1 ≤ w) (hw : w ≤ 255) :
    _print_format (bytes "%" ++ decimal_literal w ++ bytes "S") (Arg.str s :: ap) =
      some (ap, emit (List.replicate (w - s.length) 32 ++ s)
        { chars := [], charsOutputted := 0 }) ∧
    _print_format (bytes "%-" ++ decimal_literal w ++ bytes "S") (Arg.str s :: ap) =
      some (ap, emit (s ++ List.replicate (w - s.length) 32)
        { chars := [], charsOutputted := 0 }) ∧
    _print_format (bytes "%10S") [Arg.str (bytes "hi")] =
      some ([], { chars := bytes "        hi", charsOutputted := 10 }) := by
  have hw0 : w ≠ 0 := by omega
  have hmod : s.length % 256 = s.length := by omega
  have hts := toSChar_small s.length hn
  refine ⟨?_, ?_, by decide⟩
  · have t : bytes "%" ++ decimal_literal w ++ bytes "S" = string_template [] w none := by
      simp only [string_template, hw0, if_false, List.nil_append, List.append_nil]
      rfl
    rw [t, string_conversion_eq [] w none s ap (by simp) (by omega) (by simp),
      print_string_no_nul _ s _ h0]
    simp only [show (string_conv [] w none).left_justify = false from rfl,
      show (string_conv [] w none).width = w from rfl,
      show (string_conv [] w none).decimals = -1 from rfl, hmod,
      Bool.not_false, Bool.true_and, Bool.false_and, Bool.false_eq_true, if_false, if_true,
      List.append_nil, decide_eq_true_eq]
    rw [hts, List.take_length]
    by_cases hlt : s.length < w
    · simp [hlt]
    · simp [hlt, show w - s.length = 0 by omega]
  · have t : bytes "%-" ++ decimal_literal w ++ bytes "S" = string_template [45] w none := by
      simp only [string_template, hw0, if_false, List.nil_append, List.append_nil]
      rfl
    rw [t, string_conversion_eq [45] w none s ap (by decide) (by omega) (by simp),
      print_string_no_nul _ s _ h0]
    simp only [show (string_conv [45] w none).left_justify = true from rfl,
      show (string_conv [45] w none).width = w from rfl,
      show (string_conv [45] w none).decimals = -1 from rfl, hmod,
      Bool.not_true, Bool.true_and, Bool.false_and, Bool.false_eq_true, if_false, if_true,
      List.nil_append, decide_eq_true_eq]
    rw [hts, List.take_length]
    by_cases hlt : s.length < w
    · simp [hlt]
    · simp [hlt, show w - s.length = 0 by omega]

set_option maxRecDepth 100000 in
/-- C10 at the string `hi` and the width 10. -/
theorem width_pads_string_witness :
    (0 ∉ bytes "hi" ∧ (bytes "hi").length ≤ 127 ∧ 1 ≤ 10 ∧ 10 ≤ 255) ∧
    (_print_format (bytes "%" ++ decimal_literal 10 ++ bytes "S") (Arg.str (bytes "hi") :: []) =
      some ([], emit (List.replicate (10 - (bytes "hi").length) 32 ++ bytes "hi")
        { chars := [], charsOutputted := 0 }) ∧
    _print_format (bytes "%-" ++ decimal_literal 10 ++ bytes "S") (Arg.str (bytes "hi") :: []) =
      some ([], emit (bytes "hi" ++ List.replicate (10 - (bytes "hi").length) 32)
        { chars := [], charsOutputted := 0 }) ∧
    _print_format (bytes "%10S") [Arg.str (bytes "hi")] =
      some ([], { chars := bytes "        hi", charsOutputted := 10 })) :=
  ⟨⟨by decide, by decide, by decide, by decide⟩,
    width_pads_string (bytes "hi") 10 [] (by decide) (by decide) (by decide) (by decide)⟩

/-! ## The shift/subtract loop against a divide/modulo step -/

/-- C16: for every 32-bit value `v` and radix `r` in {8, 10, 16}, one call of
`calculate_digit` with `byte[4]` cleared is a direct divide/modulo step: it
leaves `v mod r` (a digit below `r`) in `byte[4]` and `v / r` in the 32-bit
value. -/
theorem calculate_digit_refines_divide_step (v r : Nat) (hv : v < 4294967296)
    (hr : r = 8 ∨ r = 10 ∨ r = 16) :
    calculate_digit { ul := v, byte4 := 0 } r = divide_step v r ∧
    (calculate_digit { ul := v, byte4 := 0 } r).byte4 = v % r ∧
    (calculate_digit { ul := v, byte4 := 0 } r).byte4 < r ∧
    (calculate_digit { ul := v, byte4 := 0 } r).ul = v / r := by
  have h := calculate_digit_divmod v r hv (by omega) (by omega)
  rw [h]
  exact ⟨rfl, rfl, Nat.mod_lt _ (by omega), rfl⟩

set_option maxRecDepth 100000 in
/-- C16 at the largest 32-bit value in radix 10. -/
theorem calculate_digit_refines_divide_step_witness :
    (4294967295 < 4294967296 ∧ ((10 : Nat) = 8 ∨ (10 : Nat) = 10 ∨ (10 : Nat) = 16)) ∧
    (calculate_digit { ul := 4294967295, byte4 := 0 } 10 = divide_step 4294967295 10 ∧
    (calculate_digit { ul := 4294967295, byte4 := 0 } 10).byte4 = 4294967295 % 10 ∧
    (calculate_digit { ul := 4294967295, byte4 := 0 } 10).byte4 < 10 ∧
    (calculate_digit { ul := 4294967295, byte4 := 0 } 10).ul = 4294967295 / 10) :=
  ⟨⟨by decide, Or.inr (Or.inl rfl)⟩,
    calculate_digit_refines_divide_step 4294967295 10 (by decide) (Or.inr (Or.inl rfl))⟩

/-! ## Rounds of the digit loop and bounds of the digit buffer -/

theorem digit_loop_more_fuel (r : Nat) : ∀ (fuel k : Nat) (d x : Digits),
    digit_loop r fuel d = some x → digit_loop r (fuel + k) d = some x := by
  intro fuel
  induction fuel with
  | zero => intro k d x h; simp [digit_loop] at h
  | succ fuel ih =>
    intro k d x h
    rw [show fuel + 1 + k = (fuel + k) + 1 by omega]
    simp only [digit_loop] at h ⊢
    cases hb : digit_body r d with
    | none => rw [hb] at h; simp at h
    | some d1 =>
      rw [hb] at h
      simp only at h ⊢
      by_cases hz : d1.ul ≠ 0
      · rw [if_pos hz] at h ⊢
        exact ih k d1 x h
      · rw [if_neg hz] at h ⊢
        exact h

/-- For a 32-bit value and a radix from 8 to 16 the packing loop returns within
11 rounds, with `length` the number of digits and `pstore` inside `store`. -/
theorem digit_loop_eleven (r v : Nat) (hr8 : 8 ≤ r) (hr : r ≤ 16)
    (hv : v < 4294967296) :
    ∃ d, digit_loop r 11 (Digits.start v) = some d ∧
      digit_loop r 32 (Digits.start v) = some d ∧
      d.length = (base_repr r v).length ∧ (0 ≤ d.pstore ∧ d.pstore ≤ 5) ∧
      Unpacks d.store d.pstore d.lsd (base_repr r v) := by
  have hb := digits_length_bound r v hr8 hv
  have hstart : Packed (Digits.start v) [] := by
    refine ⟨trivial, ?_, ?_, rfl⟩
    · intro h; simp [Digits.start] at h
    · simp [Digits.start]
  obtain ⟨d, h1, _, h3⟩ := digit_loop_packed r (by omega) hr 11 (Digits.start v) []
    hv hstart (by simpa [Digits.start] using (by omega : (Nat.digits r (v / r)).length ≤ 11))
    (by simp only [Digits.start]; omega)
  simp only [Digits.start] at h3
  rw [← base_repr_eq r v (by omega)] at h3
  obtain ⟨hU, _, hP, hL⟩ := h3
  have hlen := (base_repr_length r v hr8 hv)
  refine ⟨d, h1, digit_loop_more_fuel r 11 21 _ d h1, hL, ?_, hU⟩
  cases hl : d.lsd <;> rw [hl] at hP <;> simp at hP <;> omega

set_option maxRecDepth 100000 in
/-- C17: for every 32-bit value and radix in {8, 10, 16} the digit loop
returns within 11 rounds (`length` counts them; the bound of 32 rounds used by
the integer block gives the same state), 11 rounds being needed for the largest
value in octal; the unpacking loop then returns as well.  In the embedding a
write or read of `store[i]` only succeeds for `0 ≤ i ≤ 5`, so both loops
returning means that no access through `pstore` left the 6-byte buffer; at the
end of packing `pstore` itself is within `0..5`. -/
theorem digit_buffer_in_bounds (v r : Nat) (lower_case : Bool) (o : Out)
    (hv : v < 4294967296) (hr : r = 8 ∨ r = 10 ∨ r = 16) :
    (digit_loop r 11 (Digits.start v)).map Digits.length = some (base_repr r v).length ∧
    (base_repr r v).length ≤ 11 ∧
    digit_loop r 32 (Digits.start v) = digit_loop r 11 (Digits.start v) ∧
    ((digit_loop r 11 (Digits.start v)).bind fun d =>
        output_digits lower_case d.length d o) =
      some (emit ((base_repr r v).map fun x => digit_char x lower_case) o) ∧
    (digit_loop r 11 (Digits.start v)).map
      (fun d => decide (0 ≤ d.pstore ∧ d.pstore ≤ 5)) = some true ∧
    (∀ (st : Int → Option Nat) (i : Int) (b : Nat),
      (store_write st i b).isSome = true → 0 ≤ i ∧ i ≤ 5) ∧
    (∀ (st : Int → Option Nat) (i : Int),
      (store_read st i).isSome = true → 0 ≤ i ∧ i ≤ 5) ∧
    (digit_loop 8 10 (Digits.start 4294967295)).isSome = false ∧
    (digit_loop 8 11 (Digits.start 4294967295)).map Digits.length = some 11 := by
  obtain ⟨d, h11, h32, hlen, hps, hU⟩ := digit_loop_eleven r v (by omega) (by omega) hv
  refine ⟨by rw [h11]; simp [hlen], (base_repr_length r v (by omega) hv).2,
    by rw [h11, h32], ?_, ?_, ?_, ?_, by decide, by decide⟩
  · rw [h11]
    simp only [Option.some_bind, hlen]
    rw [output_digits_unpacks lower_case (base_repr r v) d o hU]
    simp [emit]
  · rw [h11]
    simp [hps]
  · intro st i b h
    unfold store_write at h
    split_ifs at h with hi
    · omega
    · simp at h
  · intro st i h
    unfold store_read at h
    split_ifs at h with hi
    · omega
    · simp at h

/-- C17 at the largest 32-bit value in octal. -/
theorem digit_buffer_in_bounds_witness :
    (4294967295 < 4294967296 ∧ ((8 : Nat) = 8 ∨ (8 : Nat) = 10 ∨ (8 : Nat) = 16)) ∧
    ((digit_loop 8 11 (Digits.start 4294967295)).map Digits.length =
      some (base_repr 8 4294967295).length ∧
    (base_repr 8 4294967295).length ≤ 11 ∧
    digit_loop 8 32 (Digits.start 4294967295) = digit_loop 8 11 (Digits.start 4294967295) ∧
    ((digit_loop 8 11 (Digits.start 4294967295)).bind fun d =>
        output_digits false d.length d { chars := [], charsOutputted := 0 }) =
      some (emit ((base_repr 8 4294967295).map fun x => digit_char x false)
        { chars := [], charsOutputted := 0 }) ∧
    (digit_loop 8 11 (Digits.start 4294967295)).map
      (fun d => decide (0 ≤ d.pstore ∧ d.pstore ≤ 5)) = some true ∧
    (∀ (st : Int → Option Nat) (i : Int) (b : Nat),
      (store_write st i b).isSome = true → 0 ≤ i ∧ i ≤ 5) ∧
    (∀ (st : Int → Option Nat) (i : Int),
      (store_read st i).isSome = true → 0 ≤ i ∧ i ≤ 5) ∧
    (digit_loop 8 10 (Digits.start 4294967295)).isSome = false ∧
    (digit_loop 8 11 (Digits.start 4294967295)).map Digits.length = some 11) :=
  ⟨⟨by decide, Or.inl rfl⟩,
    digit_buffer_in_bounds 4294967295 8 false { chars := [], charsOutputted := 0 }
      (by decide) (Or.inl rfl)⟩

/-! ## Long signed decimals and the masks of unsigned conversions -/

/-- An integer conversion without width, without sign flags and without `B`
emits the sign `-` of a negative signed value and the digits, nothing else. -/
theorem plain_integer_conversion (fl : List Nat) (c : Nat) (v : Int) (ap : List Arg)
    (hfl : ∀ x ∈ fl, is_flag x = true) (hplus : 43 ∉ fl) (hspace : 32 ∉ fl)
    (h66 : 66 ∉ fl) (h98 : 98 ∉ fl) (hc : is_integer_conversion c = true) :
    _print_format (integer_template fl false 0 c) (Arg.int v :: ap) =
      some (ap, emit
        ((if (negate (conversion_signed c) (masked (integer_conv fl false 0 c) v)).2 = true
            then [45] else []) ++
          digits_text (integer_conv fl false 0 c) (islower c)
            (negate (conversion_signed c) (masked (integer_conv fl false 0 c) v)).1)
        { chars := [], charsOutputted := 0 }) := by
  obtain ⟨s1, s2, _⟩ := foldl_flag_step_sign fl Conv.init
  have p1 : (integer_conv fl false 0 c).prefix_sign = false := by
    show (fl.foldl flag_step Conv.init).prefix_sign = _
    rw [s1]; simp [hplus, Conv.init]
  have p2 : (integer_conv fl false 0 c).prefix_space = false := by
    show (fl.foldl flag_step Conv.init).prefix_space = _
    rw [s2]; simp [hspace, Conv.init]
  have hm := negate_lt (conversion_signed c) _ (masked_lt (integer_conv fl false 0 c) v)
  have hrad := conversion_radix_range c
  have hL := (base_repr_length (conversion_radix c)
    (negate (conversion_signed c) (masked (integer_conv fl false 0 c) v)).1
    (by omega) hm).1
  rw [integer_conversion_eq fl false 0 c v ap hfl h66 h98 (by omega) hc, field_text_layout]
  generalize negate (conversion_signed c) (masked (integer_conv fl false 0 c) v) = neg at hL ⊢
  have hdl : (digits_text (integer_conv fl false 0 c) (islower c) neg.1).length =
      (base_repr (conversion_radix c) neg.1).length := by
    simp [digits_text, integer_conv]
  have hfill : ∀ k : Nat, 1 - k - (digits_text (integer_conv fl false 0 c) (islower c)
      neg.1).length = 0 := by
    intro k; rw [hdl]; omega
  simp only [field_layout, sign_text, p1, p2, Bool.false_eq_true, if_false,
    show (integer_conv fl false 0 c).width = 0 from rfl,
    show (integer_conv fl false 0 c).zero_padding = false from rfl, if_true, hfill]
  simp

theorem int_toString_bytes (v : Int) :
    (if v < 0 then [45] else []) ++ bytes (Nat.repr v.natAbs) = bytes (toString v) := by
  cases v with
  | ofNat m =>
    have h : ¬ (Int.ofNat m < 0) := by simp
    simp only [h, if_false, List.nil_append]
    rfl
  | negSucc m =>
    have h : Int.negSucc m < 0 := Int.negSucc_lt_zero m
    simp only [h, if_true]
    rfl

set_option maxRecDepth 100000 in
/-- C18: with 32-bit two's complement and wrapping negation, for every
`-2^31 ≤ v < 2^31` the template `%LD` emits the standard decimal representation
of `v`: a `-` and the decimal digits of `|v|` for `v < 0`, the digits of `v`
alone otherwise (the text the library prints for the integer `v`); the most
negative value gives `-2147483648`. -/
theorem long_decimal_standard (v : Int) (ap : List Arg)
    (hlo : -2147483648 ≤ v) (hhi : v < 2147483648) :
    _print_format (bytes "%LD") (Arg.int v :: ap) =
      some (ap, emit ((if v < 0 then [45] else []) ++ bytes (Nat.repr v.natAbs))
        { chars := [], charsOutputted := 0 }) ∧
    (if v < 0 then [45] else []) ++ bytes (Nat.repr v.natAbs) = bytes (toString v) ∧
    _print_format (bytes "%LD") [Arg.int (-2147483648)] =
      some ([], { chars := bytes "-2147483648", charsOutputted := 11 }) ∧
    _print_format (bytes "%LD") [Arg.int 2147483647] =
      some ([], { chars := bytes "2147483647", charsOutputted := 10 }) := by
  refine ⟨?_, int_toString_bytes v, by decide, by decide⟩
  have t : bytes "%LD" = integer_template [76] false 0 68 := by decide
  have hn := negate_masked_signed (integer_conv [76] false 0 68) v rfl hlo hhi
  rw [t, plain_integer_conversion [76] 68 v ap (by decide) (by decide) (by decide)
    (by decide) (by decide) (by decide), show conversion_signed 68 = true from rfl, hn,
    digits_text_decimal _ _ _ rfl, decimal_text_eq_repr]
  simp

/-- C18 at the most negative 32-bit value. -/
theorem long_decimal_standard_witness :
    ((-2147483648 : Int) ≤ -2147483648 ∧ (-2147483648 : Int) < 2147483648) ∧
    (_print_format (bytes "%LD") (Arg.int (-2147483648) :: []) =
      some ([], emit ((if (-2147483648 : Int) < 0 then [45] else []) ++
          bytes (Nat.repr (-2147483648 : Int).natAbs))
        { chars := [], charsOutputted := 0 }) ∧
    (if (-2147483648 : Int) < 0 then [45] else []) ++
        bytes (Nat.repr (-2147483648 : Int).natAbs) =
      bytes (toString (-2147483648 : Int)) ∧
    _print_format (bytes "%LD") [Arg.int (-2147483648)] =
      some ([], { chars := bytes "-2147483648", charsOutputted := 11 }) ∧
    _print_format (bytes "%LD") [Arg.int 2147483647] =
      some ([], { chars := bytes "2147483647", charsOutputted := 10 })) :=
  ⟨⟨by decide, by decide⟩, long_decimal_standard (-2147483648) [] (by decide) (by decide)⟩

theorem toU32_and_255 (v : Int) : toU32 v &&& 0xFF = (v % 256).toNat := by
  have e := Nat.and_pow_two_sub_one_eq_mod (toU32 v) 8
  norm_num at e
  rw [e]
  unfold toU32
  omega

theorem toU32_and_65535 (v : Int) : toU32 v &&& 0xFFFF = (v % 65536).toNat := by
  have e := Nat.and_pow_two_sub_one_eq_mod (toU32 v) 16
  norm_num at e
  rw [e]
  unfold toU32
  omega

/-- The integer block with `char_argument` set: the read of the argument is
`va_arg(ap, char)`, there is no result. -/
theorem print_integer_char (cv : Conv) (lower_case : Bool) (ap : List Arg) (o : Out)
    (hca : cv.char_argument = true) : print_integer cv lower_case ap o = none := by
  unfold print_integer
  split
  · rw [fetch_char cv _ hca]
  · rfl

/-- A specification `%`, flags and length modifiers with `B` among them,
optional `0`, width, integer conversion letter: the argument is read by
`va_arg(ap, char)` and the call has no result, whatever the arguments. -/
theorem integer_conversion_byte (fl : List Nat) (zp : Bool) (w c : Nat) (ap : List Arg)
    (hfl : ∀ x ∈ fl, is_flag x = true) (hB : 66 ∈ fl ∨ 98 ∈ fl) (hw : w < 256)
    (hc : is_integer_conversion c = true) :
    _print_format (integer_template fl zp w c) ap = none := by
  obtain ⟨hdig, hwa⟩ := width_field_after zp w hw
  obtain ⟨k1, k2, k3, k4, k5, k6⟩ := foldl_flag_step_keeps fl Conv.init
  have e : integer_template fl zp w c ++ [0] =
      37 :: (fl ++ (((if zp then [48] else []) ++ (if w = 0 then [] else decimal_literal w))
        ++ [c, 0])) := by
    simp [integer_template]
  unfold _print_format
  rw [e]
  have h37 : (37 : Nat) ≠ 0 := by decide
  simp only [format_loop, h37, if_false, if_true]
  rw [format_loop_flags fl _ _ _ _ hfl, format_loop_width _ _ _ _ _ hdig k2]
  simp only [k1, k3]
  rw [show (Conv.init.width, Conv.init.zero_padding) = (0, false) from rfl, hwa]
  simp only [format_loop]
  have hg := get_conversion_spec_integer c
    { (fl.foldl flag_step Conv.init) with width := w, zero_padding := zp }
    ap { chars := [], charsOutputted := 0 } hc k4
  rw [hg]
  have hcv : ({ (fl.foldl flag_step Conv.init) with
      zero_padding := zp, width := w, signed_argument := conversion_signed c,
      radix := conversion_radix c } : Conv) = integer_conv fl zp w c := rfl
  simp only [hcv]
  have hrad := conversion_radix_range c
  have hr : (integer_conv fl zp w c).radix = conversion_radix c := rfl
  have hf : (integer_conv fl zp w c).float_argument = false := k5
  have hca : (integer_conv fl zp w c).char_argument = true :=
    foldl_flag_step_char_set fl Conv.init hB
  have hpi := print_integer_char (integer_conv fl zp w c) (islower c) ap
    { chars := [], charsOutputted := 0 } hca
  have hr0 : (integer_conv fl zp w c).radix ≠ 0 := by rw [hr]; omega
  simp only [finish, after_switch, hf, Bool.false_eq_true, if_false, hr0, ne_eq,
    not_false_eq_true, if_true, hpi]

/-- The magnitude rendered by an unsigned conversion letter `c` without
length modifier and with `L`. -/
theorem unsigned_conversion_masks (c : Nat) (v : Int) (ap : List Arg)
    (hc : is_integer_conversion c = true) (hu : conversion_signed c = false) :
    _print_format [37, c] (Arg.int v :: ap) =
      some (ap, emit ((base_repr (conversion_radix c) (v % 65536).toNat).map
        fun x => digit_char x (islower c)) { chars := [], charsOutputted := 0 }) ∧
    _print_format [37, 76, c] (Arg.int v :: ap) =
      some (ap, emit ((base_repr (conversion_radix c) (v % 4294967296).toNat).map
        fun x => digit_char x (islower c)) { chars := [], charsOutputted := 0 }) := by
  have f0 : masked (integer_conv [] false 0 c) v = (v % 65536).toNat := by
    have hs : (integer_conv [] false 0 c).signed_argument = false := hu
    simp only [masked, hs,
      show (integer_conv [] false 0 c).long_argument = false from rfl,
      Bool.false_eq_true, if_false, Bool.not_false, if_true]
    exact toU32_and_65535 v
  have f2 : masked (integer_conv [76] false 0 c) v = (v % 4294967296).toNat := by
    simp only [masked,
      show (integer_conv [76] false 0 c).long_argument = true from rfl, if_true]
    rfl
  have t0 : [37, c] = integer_template [] false 0 c := rfl
  have t2 : [37, 76, c] = integer_template [76] false 0 c := rfl
  refine ⟨?_, ?_⟩
  · rw [t0, plain_integer_conversion [] c v ap (by simp) (by simp) (by simp) (by simp)
      (by simp) hc, hu, f0]
    simp [negate, digits_text, integer_conv]
  · rw [t2, plain_integer_conversion [76] c v ap (by decide) (by decide) (by decide)
      (by decide) (by decide) hc, hu, f2]
    simp [negate, digits_text, integer_conv]

set_option maxRecDepth 100000 in
/-- C20: an unsigned conversion (`U`, `O`, `X` in either case) renders the
argument modulo `2^16` without length modifier and all 32 bits with `L`: for
every `v`, `%U` emits the decimal digits of `v mod 65536` and `%LU` those of
`v mod 2^32`, which is `v` itself for `0 ≤ v < 2^32`; 70000 gives `4464` with
`%U` and `70000` with `%LU`.  With `B` the code does not render the argument
modulo `2^8`: it reads it by `va_arg(ap, char)`, which is undefined for an
argument that was passed as an `int`, so that `%BU` of 300 has no result where
`44` is expected. -/
theorem byte_modifier_read_undefined (c : Nat) (v : Int) (ap : List Arg)
    (hc : c ∈ [85, 117, 79, 111, 88, 120]) :
    (_print_format [37, c] (Arg.int v :: ap) =
      some (ap, emit ((base_repr (conversion_radix c) (v % 65536).toNat).map
        fun x => digit_char x (islower c)) { chars := [], charsOutputted := 0 }) ∧
    _print_format [37, 76, c] (Arg.int v :: ap) =
      some (ap, emit ((base_repr (conversion_radix c) (v % 4294967296).toNat).map
        fun x => digit_char x (islower c)) { chars := [], charsOutputted := 0 })) ∧
    _print_format [37, 66, c] (Arg.int v :: ap) = none ∧
    _print_format (bytes "%U") (Arg.int v :: ap) =
      some (ap, emit (bytes (Nat.repr (v % 65536).toNat))
        { chars := [], charsOutputted := 0 }) ∧
    _print_format (bytes "%LU") (Arg.int v :: ap) =
      some (ap, emit (bytes (Nat.repr (v % 4294967296).toNat))
        { chars := [], charsOutputted := 0 }) ∧
    _print_format (bytes "%BU") (Arg.int v :: ap) = none ∧
    (0 ≤ v → v < 4294967296 → (v % 4294967296).toNat = v.toNat) ∧
    _print_format (bytes "%U") [Arg.int 70000] =
      some ([], { chars := bytes "4464", charsOutputted := 4 }) ∧
    _print_format (bytes "%LU") [Arg.int 70000] =
      some ([], { chars := bytes "70000", charsOutputted := 5 }) ∧
    _print_format (bytes "%BU") [Arg.int 300] = none ∧
    bytes (Nat.repr ((300 : Int) % 256).toNat) = bytes "44" ∧
    ¬ (_print_format (bytes "%BU") [Arg.int 300] =
      some ([], { chars := bytes "44", charsOutputted := 2 })) := by
  have hcu : is_integer_conversion c = true ∧ conversion_signed c = false := by
    simp only [List.mem_cons, List.mem_singleton, List.not_mem_nil, or_false] at hc
    rcases hc with h | h | h | h | h | h <;> subst h <;> decide
  obtain ⟨u0, u2⟩ := unsigned_conversion_masks 85 v ap (by decide) (by decide)
  have d10 : ∀ m : Nat, ((base_repr (conversion_radix 85) m).map
      fun x => digit_char x (islower 85)) = bytes (Nat.repr m) := by
    intro m
    rw [← decimal_text_eq_repr]
    exact digits_text_decimal { Conv.init with radix := 10 } false m rfl
  rw [d10] at u0 u2
  have b1 : _print_format [37, 66, c] (Arg.int v :: ap) = none :=
    integer_conversion_byte [66] false 0 c (Arg.int v :: ap) (by decide) (by decide)
      (by decide) hcu.1
  have b2 : _print_format (bytes "%BU") (Arg.int v :: ap) = none :=
    integer_conversion_byte [66] false 0 85 (Arg.int v :: ap) (by decide) (by decide)
      (by decide) (by decide)
  refine ⟨unsigned_conversion_masks c v ap hcu.1 hcu.2, b1, u0, u2, b2, ?_,
    by decide, by decide, by decide, by decide, by decide⟩
  intro h0 h1
  omega

set_option maxRecDepth 100000 in
/-- C20 at the letter `x` and the value 70000. -/
theorem byte_modifier_read_undefined_witness :
    (120 ∈ [85, 117, 79, 111, 88, 120]) ∧
    ((_print_format [37, 120] (Arg.int 70000 :: []) =
      some ([], emit ((base_repr (conversion_radix 120) ((70000 : Int) % 65536).toNat).map
        fun x => digit_char x (islower 120)) { chars := [], charsOutputted := 0 }) ∧
    _print_format [37, 76, 120] (Arg.int 70000 :: []) =
      some ([], emit
        ((base_repr (conversion_radix 120) ((70000 : Int) % 4294967296).toNat).map
          fun x => digit_char x (islower 120)) { chars := [], charsOutputted := 0 })) ∧
    _print_format [37, 66, 120] (Arg.int 70000 :: []) = none ∧
    _print_format (bytes "%U") (Arg.int 70000 :: []) =
      some ([], emit (bytes (Nat.repr ((70000 : Int) % 65536).toNat))
        { chars := [], charsOutputted := 0 }) ∧
    _print_format (bytes "%LU") (Arg.int 70000 :: []) =
      some ([], emit (bytes (Nat.repr ((70000 : Int) % 4294967296).toNat))
        { chars := [], charsOutputted := 0 }) ∧
    _print_format (bytes "%BU") (Arg.int 70000 :: []) = none ∧
    ((0 : Int) ≤ 70000 → (70000 : Int) < 4294967296 →
      ((70000 : Int) % 4294967296).toNat = (70000 : Int).toNat) ∧
    _print_format (bytes "%U") [Arg.int 70000] =
      some ([], { chars := bytes "4464", charsOutputted := 4 }) ∧
    _print_format (bytes "%LU") [Arg.int 70000] =
      some ([], { chars := bytes "70000", charsOutputted := 5 }) ∧
    _print_format (bytes "%BU") [Arg.int 300] = none ∧
    bytes (Nat.repr ((300 : Int) % 256).toNat) = bytes "44" ∧
    ¬ (_print_format (bytes "%BU") [Arg.int 300] =
      some ([], { chars := bytes "44", charsOutputted := 2 }))) :=
  ⟨by decide, byte_modifier_read_undefined 120 70000 [] (by decide)⟩

/-! ## Width and precision of a string together -/

/-- A string specification whose width is written as the literal `0`:
`%`, flags, `0`, `.`, precision, `S`. -/
theorem string_zero_width (fl : List Nat) (p : Nat) (s : List Nat) (ap : List Arg)
    (hfl : ∀ x ∈ fl, is_flag x = true) (hp : p ≤ 127) :
    _print_format (37 :: (fl ++ 48 :: 46 :: (decimal_literal p ++ [83]))) (Arg.str s :: ap) =
      some (ap, print_string
        { (fl.foldl flag_step Conv.init) with
          width := 0, zero_padding := true, decimals := (p : Int) } s
        { chars := [], charsOutputted := 0 }) := by
  obtain ⟨k1, k2, k3, k4, k5, k6⟩ := foldl_flag_step_keeps fl Conv.init
  have h37 : (37 : Nat) ≠ 0 := by decide
  have hds := decimals_set_literal p (by omega)
  have hda := decimals_after_literal p (by omega)
  have hnd := decimal_literal_digits p (by omega)
  have e : (37 :: (fl ++ 48 :: 46 :: (decimal_literal p ++ [83]))) ++ [0] =
      37 :: (fl ++ ([48] ++ (46 :: (decimal_literal p ++ [83, 0])))) := by
    simp
  unfold _print_format
  rw [e]
  simp only [format_loop, h37, if_false, if_true]
  rw [format_loop_flags fl _ _ _ _ hfl,
    format_loop_width [48] _ _ _ _ (by decide) k2]
  simp only [k1, k3]
  rw [show width_after (Conv.init.width, Conv.init.zero_padding) [48] = (0, true) by decide]
  have hdot : get_conversion_spec 46
      { (fl.foldl flag_step Conv.init) with width := 0, zero_padding := true }
      (Arg.str s :: ap) { chars := [], charsOutputted := 0 } =
      some (some { (fl.foldl flag_step Conv.init) with
        width := 0, zero_padding := true, decimals := 0 }, Arg.str s :: ap,
        { chars := [], charsOutputted := 0 }) := by
    have hd : (fl.foldl flag_step Conv.init).decimals = -1 := k2
    simp [get_conversion_spec, isdigit, hd]
  simp only [format_loop, hdot]
  rw [format_loop_decimals (decimal_literal p) [83, 0]
    { (fl.foldl flag_step Conv.init) with width := 0, zero_padding := true, decimals := 0 }
    _ _ hnd hds]
  simp only
  rw [hda]
  have hS : ∀ (cv : Conv) (o : Out), cv.float_argument = false → cv.radix = 0 →
      format_loop [83, 0] (some cv) (Arg.str s :: ap) o =
        some (ap, print_string cv s o) := by
    intro cv o hf hr
    have hg : get_conversion_spec 83 cv (Arg.str s :: ap) o =
        finish cv false ap (print_string cv s o) := rfl
    simp only [format_loop, hg, finish, after_switch, hf, hr, Bool.false_eq_true,
      if_false, ne_eq, not_true_eq_false, if_true]
  rw [hS { (fl.foldl flag_step Conv.init) with
    width := 0, zero_padding := true, decimals := (p : Int) } _ k5 k6]

set_option maxRecDepth 100000 in
/-- C19: in `case 'S'` the padding depends on the width and on the full length
of the string only.  For a string `s` of `n ≤ 127` characters, a width
`w ≤ 255` (absent when 0) and a precision `p ≤ 127`, `%w.pS` emits
`max 0 (w - n)` spaces and then the first `min p n` characters of `s`, and
`%-w.pS` the same characters and then the `max 0 (w - n)` spaces; a width
written as the literal `0` pads nothing.  So for `p < n` the field can be
shorter than `w`: `%5.3S` of `hello` gives `hel` with no padding. -/
theorem string_padding_ignores_precision (s : List Nat) (w p : Nat) (ap : List Arg)
    (h0 : 0 ∉ s) (hn : s.length ≤ 127) (hw : w ≤ 255) (hp : p ≤ 127) :
    _print_format (string_template [] w (some p)) (Arg.str s :: ap) =
      some (ap, emit (List.replicate (w - s.length) 32 ++ s.take p)
        { chars := [], charsOutputted := 0 }) ∧
    _print_format (string_template [45] w (some p)) (Arg.str s :: ap) =
      some (ap, emit (s.take p ++ List.replicate (w - s.length) 32)
        { chars := [], charsOutputted := 0 }) ∧
    (s.take p).length = min p s.length ∧
    string_template [] w (some p) =
      bytes "%" ++ (if w = 0 then [] else decimal_literal w) ++ bytes "." ++
        decimal_literal p ++ bytes "S" ∧
    string_template [45] w (some p) =
      bytes "%-" ++ (if w = 0 then [] else decimal_literal w) ++ bytes "." ++
        decimal_literal p ++ bytes "S" ∧
    _print_format (bytes "%0." ++ decimal_literal p ++ bytes "S") (Arg.str s :: ap) =
      some (ap, emit (s.take p) { chars := [], charsOutputted := 0 }) ∧
    _print_format (bytes "%-0." ++ decimal_literal p ++ bytes "S") (Arg.str s :: ap) =
      some (ap, emit (s.take p) { chars := [], charsOutputted := 0 }) ∧
    _print_format (bytes "%5.3S") [Arg.str (bytes "hello")] =
      some ([], { chars := bytes "hel", charsOutputted := 3 }) ∧
    _print_format (bytes "%-5.3S") [Arg.str (bytes "hello")] =
      some ([], { chars := bytes "hel", charsOutputted := 3 }) ∧
    _print_format (bytes "%8.3S") [Arg.str (bytes "hello")] =
      some ([], { chars := bytes "   hel", charsOutputted := 6 }) := by
  have hmod : s.length % 256 = s.length := by omega
  have hne : (p : Int) ≠ -1 := by omega
  refine ⟨?_, ?_, List.length_take _ _, ?_, ?_, ?_, ?_, by decide, by decide, by decide⟩
  · rw [string_conversion_eq [] w (some p) s ap (by simp) (by omega)
      (by intro m hm; cases hm; omega), print_string_no_nul _ s _ h0]
    simp only [show (string_conv [] w (some p)).left_justify = false from rfl,
      show (string_conv [] w (some p)).width = w from rfl,
      show (string_conv [] w (some p)).decimals = (p : Int) from rfl, hne, hmod,
      Bool.not_false, Bool.true_and, Bool.false_and, Bool.false_eq_true, if_false,
      List.append_nil, decide_eq_true_eq, Int.toNat_ofNat]
    by_cases hlt : s.length < w
    · simp [hlt]
    · simp [hlt, show w - s.length = 0 by omega]
  · rw [string_conversion_eq [45] w (some p) s ap (by decide) (by omega)
      (by intro m hm; cases hm; omega), print_string_no_nul _ s _ h0]
    simp only [show (string_conv [45] w (some p)).left_justify = true from rfl,
      show (string_conv [45] w (some p)).width = w from rfl,
      show (string_conv [45] w (some p)).decimals = (p : Int) from rfl, hne, hmod,
      Bool.not_true, Bool.true_and, Bool.false_and, Bool.false_eq_true, if_false,
      List.nil_append, decide_eq_true_eq, Int.toNat_ofNat]
    by_cases hlt : s.length < w
    · simp [hlt]
    · simp [hlt, show w - s.length = 0 by omega]
  · simp only [string_template, List.nil_append, List.append_assoc]
    rfl
  · simp only [string_template, List.append_assoc]
    rfl
  · have t : bytes "%0." ++ decimal_literal p ++ bytes "S" =
        37 :: ([] ++ 48 :: 46 :: (decimal_literal p ++ [83])) := by
      simp only [List.nil_append, List.append_assoc]
      rfl
    rw [t, string_zero_width [] p s ap (by simp) hp, print_string_no_nul _ s _ h0]
    simp [Conv.init, hne]
  · have t : bytes "%-0." ++ decimal_literal p ++ bytes "S" =
        37 :: ([45] ++ 48 :: 46 :: (decimal_literal p ++ [83])) := by
      simp only [List.append_assoc]
      rfl
    rw [t, string_zero_width [45] p s ap (by decide) hp, print_string_no_nul _ s _ h0]
    simp [Conv.init, hne, flag_step]

set_option maxRecDepth 100000 in
/-- C19 at `hello`, width 8 and precision 3. -/
theorem string_padding_ignores_precision_witness :
    (0 ∉ bytes "hello" ∧ (bytes "hello").length ≤ 127 ∧ 8 ≤ 255 ∧ 3 ≤ 127) ∧
    (_print_format (string_template [] 8 (some 3)) (Arg.str (bytes "hello") :: []) =
      some ([], emit (List.replicate (8 - (bytes "hello").length) 32 ++
          (bytes "hello").take 3)
        { chars := [], charsOutputted := 0 }) ∧
    _print_format (string_template [45] 8 (some 3)) (Arg.str (bytes "hello") :: []) =
      some ([], emit ((bytes "hello").take 3 ++
          List.replicate (8 - (bytes "hello").length) 32)
        { chars := [], charsOutputted := 0 }) ∧
    ((bytes "hello").take 3).length = min 3 (bytes "hello").length ∧
    string_template [] 8 (some 3) =
      bytes "%" ++ (if 8 = 0 then [] else decimal_literal 8) ++ bytes "." ++
        decimal_literal 3 ++ bytes "S" ∧
    string_template [45] 8 (some 3) =
      bytes "%-" ++ (if 8 = 0 then [] else decimal_literal 8) ++ bytes "." ++
        decimal_literal 3 ++ bytes "S" ∧
    _print_format (bytes "%0." ++ decimal_literal 3 ++ bytes "S")
        (Arg.str (bytes "hello") :: []) =
      some ([], emit ((bytes "hello").take 3) { chars := [], charsOutputted := 0 }) ∧
    _print_format (bytes "%-0." ++ decimal_literal 3 ++ bytes "S")
        (Arg.str (bytes "hello") :: []) =
      some ([], emit ((bytes "hello").take 3) { chars := [], charsOutputted := 0 }) ∧
    _print_format (bytes "%5.3S") [Arg.str (bytes "hello")] =
      some ([], { chars := bytes "hel", charsOutputted := 3 }) ∧
    _print_format (bytes "%-5.3S") [Arg.str (bytes "hello")] =
      some ([], { chars := bytes "hel", charsOutputted := 3 }) ∧
    _print_format (bytes "%8.3S") [Arg.str (bytes "hello")] =
      some ([], { chars := bytes "   hel", charsOutputted := 6 })) :=
  ⟨⟨by decide, by decide, by decide, by decide⟩,
    string_padding_ignores_precision (bytes "hello") 8 3 [] (by decide) (by decide)
      (by decide) (by decide)⟩

/-! ## Conversions that ignore flags, width and precision -/

/-- Flags, length modifiers, digits and dots are consumed without output and
without touching the arguments, and leave `float_argument` and `radix` as
they are at the `%`. -/
theorem format_loop_spec_chars : ∀ (pre rest : List Nat) (cv : Conv) (ap : List Arg)
    (o : Out), (∀ c ∈ pre, is_spec_char c = true) →
    cv.float_argument = false → cv.radix = 0 →
    ∃ cv2 : Conv, cv2.float_argument = false ∧ cv2.radix = 0 ∧
      format_loop (pre ++ rest) (some cv) ap o = format_loop rest (some cv2) ap o := by
  intro pre
  induction pre with
  | nil => intro rest cv ap o _ hf hr; exact ⟨cv, hf, hr, rfl⟩
  | cons c pre ih =>
    intro rest cv ap o hpre hf hr
    have hc : is_spec_char c = true := hpre c (List.mem_cons_self _ _)
    have hrest : ∀ x ∈ pre, is_spec_char x = true :=
      fun x hx => hpre x (List.mem_cons_of_mem _ hx)
    have hstep : ∃ cv1 : Conv, cv1.float_argument = false ∧ cv1.radix = 0 ∧
        get_conversion_spec c cv ap o = some (some cv1, ap, o) := by
      simp only [is_spec_char, Bool.or_eq_true, decide_eq_true_eq] at hc
      rcases hc with (hfl | hdg) | hdot
      · refine ⟨flag_step cv c, ?_, ?_, get_conversion_spec_flag c cv ap o hfl⟩
        · unfold flag_step; split_ifs <;> exact hf
        · unfold flag_step; split_ifs <;> exact hr
      · by_cases hd : cv.decimals = -1
        · refine ⟨_, ?_, ?_, get_conversion_spec_width c cv ap o hdg hd⟩
          · exact hf
          · exact hr
        · refine ⟨_, ?_, ?_, get_conversion_spec_decimals c cv ap o hdg hd⟩
          · exact hf
          · exact hr
      · subst hdot
        by_cases hd : cv.decimals = -1
        · exact ⟨{ cv with decimals := 0 }, hf, hr, by
            simp [get_conversion_spec, isdigit, hd]⟩
        · exact ⟨cv, hf, hr, by simp [get_conversion_spec, isdigit, hd]⟩
    obtain ⟨cv1, hf1, hr1, hg⟩ := hstep
    obtain ⟨cv2, hf2, hr2, hloop⟩ := ih rest cv1 ap o hrest hf1 hr1
    refine ⟨cv2, hf2, hr2, ?_⟩
    simp only [List.cons_append, format_loop, hg]
    exact hloop

theorem and_255 (x : Nat) : x &&& 0xFF = x % 256 := by
  have e := Nat.and_pow_two_sub_one_eq_mod x 8
  norm_num at e
  exact e

theorem and_15 (x : Nat) : x &&& 0x0F = x % 16 := by
  have e := Nat.and_pow_two_sub_one_eq_mod x 4
  norm_num at e
  exact e

theorem shift_4 (x : Nat) : x >>> 4 = x / 16 := by
  rw [Nat.shiftRight_eq_div_pow]

/-- `case 'P'` in closed form: `0x` and the 8 hexadecimal digits of the low 32
bits of the address. -/
theorem print_pointer_eq (lower_case : Bool) (a : Nat) (o : Out) :
    print_pointer lower_case a o =
      emit (48 :: 120 :: (hex8_digits (a % 4294967296)).map
        fun x => digit_char x lower_case) o := by
  have hu : a % 4294967296 < 4294967296 := Nat.mod_lt _ (by decide)
  simp only [print_pointer]
  generalize a % 4294967296 = u at hu ⊢
  have s24 : u >>> 24 = u / 16777216 := by rw [Nat.shiftRight_eq_div_pow]
  have s16 : u >>> 16 = u / 65536 := by rw [Nat.shiftRight_eq_div_pow]
  have s8 : u >>> 8 = u / 256 := by rw [Nat.shiftRight_eq_div_pow]
  have e7 : u / 16777216 % 256 / 16 = u / 268435456 % 16 := by omega
  have e6 : u / 16777216 % 256 % 16 = u / 16777216 % 16 := by omega
  have e5 : u / 65536 % 256 / 16 = u / 1048576 % 16 := by omega
  have e4 : u / 65536 % 256 % 16 = u / 65536 % 16 := by omega
  have e3 : u / 256 % 256 / 16 = u / 4096 % 16 := by omega
  have e2 : u / 256 % 256 % 16 = u / 256 % 16 := by omega
  have e1 : u % 256 / 16 = u / 16 % 16 := by omega
  have e0 : u % 256 % 16 = u % 16 := by omega
  simp only [OUTPUT_CHAR, OUTPUT_2DIGITS, output_2digits, output_digit,
    output_char, emit, s24, s16, s8, and_255, and_15, shift_4, hex8_digits,
    e7, e6, e5, e4, e3, e2, e1, e0]
  simp

theorem hex8_digits_spec (a : Nat) (ha : a < 4294967296) :
    (hex8_digits a).length = 8 ∧ (∀ d ∈ hex8_digits a, d < 16) ∧
    parse_digits 16 (hex8_digits a) = a := by
  refine ⟨rfl, ?_, ?_⟩
  · intro d hd
    simp only [hex8_digits, List.mem_cons, List.mem_singleton, List.not_mem_nil,
      or_false] at hd
    omega
  · simp only [parse_digits, hex8_digits, List.foldl_cons, List.foldl_nil]
    omega

/-- A conversion `P` or `p` after any flags, width and precision: `case 'P'`
runs on the next argument and control is back in the main loop. -/
theorem format_loop_pointer (pre rest : List Nat) (a : Nat) (ap : List Arg) (o : Out)
    (hpre : ∀ c ∈ pre, is_spec_char c = true) :
    format_loop (37 :: (pre ++ 80 :: rest)) none (Arg.ptr a :: ap) o =
      format_loop rest none ap (print_pointer false a o) ∧
    format_loop (37 :: (pre ++ 112 :: rest)) none (Arg.ptr a :: ap) o =
      format_loop rest none ap (print_pointer true a o) := by
  have h37 : (37 : Nat) ≠ 0 := by decide
  constructor
  · obtain ⟨cv2, hf, hr, hl⟩ := format_loop_spec_chars pre (80 :: rest) Conv.init
      (Arg.ptr a :: ap) o hpre rfl rfl
    have hg : get_conversion_spec 80 cv2 (Arg.ptr a :: ap) o =
        finish cv2 false ap (print_pointer false a o) := rfl
    simp only [format_loop, h37, if_false, if_true]
    rw [hl]
    simp only [format_loop, hg, finish, after_switch, hf, hr, Bool.false_eq_true,
      if_false, ne_eq, not_true_eq_false]
  · obtain ⟨cv2, hf, hr, hl⟩ := format_loop_spec_chars pre (112 :: rest) Conv.init
      (Arg.ptr a :: ap) o hpre rfl rfl
    have hg : get_conversion_spec 112 cv2 (Arg.ptr a :: ap) o =
        finish cv2 true ap (print_pointer true a o) := rfl
    simp only [format_loop, h37, if_false, if_true]
    rw [hl]
    simp only [format_loop, hg, finish, after_switch, hf, hr, Bool.false_eq_true,
      if_false, ne_eq, not_true_eq_false]

/-- A conversion `F` or `f` after any flags, width and precision: the
placeholder is emitted, no argument is read and control is back in the main
loop. -/
theorem format_loop_float (pre rest : List Nat) (ap : List Arg) (o : Out)
    (hpre : ∀ c ∈ pre, is_spec_char c = true) :
    format_loop (37 :: (pre ++ 70 :: rest)) none ap o =
      format_loop rest none ap (emit [60, 37, 102, 62] o) ∧
    format_loop (37 :: (pre ++ 102 :: rest)) none ap o =
      format_loop rest none ap (emit [60, 37, 102, 62] o) := by
  have h37 : (37 : Nat) ≠ 0 := by decide
  have hlit : output_literal [60, 37, 102, 62] o = emit [60, 37, 102, 62] o := by
    simp [output_literal, OUTPUT_CHAR_eq, emit_emit]
  constructor
  · obtain ⟨cv2, hf, hr, hl⟩ := format_loop_spec_chars pre (70 :: rest) Conv.init
      ap o hpre rfl rfl
    have hg : get_conversion_spec 70 cv2 ap o =
        finish { cv2 with float_argument := true } false ap o := rfl
    simp only [format_loop, h37, if_false, if_true]
    rw [hl]
    simp only [format_loop, hg, finish, after_switch, if_true, hlit]
  · obtain ⟨cv2, hf, hr, hl⟩ := format_loop_spec_chars pre (102 :: rest) Conv.init
      ap o hpre rfl rfl
    have hg : get_conversion_spec 102 cv2 ap o =
        finish { cv2 with float_argument := true } true ap o := rfl
    simp only [format_loop, h37, if_false, if_true]
    rw [hl]
    simp only [format_loop, hg, finish, after_switch, if_true, hlit]

theorem hex8_chars (a : Nat) :
    ((hex8_digits a).map fun x => digit_char x false) = (hex8_digits a).map hex_upper ∧
    ((hex8_digits a).map fun x => digit_char x true) = (hex8_digits a).map hex_lower := by
  have hlt : ∀ d ∈ hex8_digits a, d < 16 := by
    intro d hd
    simp only [hex8_digits, List.mem_cons, List.mem_singleton, List.not_mem_nil,
      or_false] at hd
    omega
  constructor
  · apply List.map_congr_left
    intro x hx
    exact (digit_char_hex x (hlt x hx)).1
  · apply List.map_congr_left
    intro x hx
    exact (digit_char_hex x (hlt x hx)).2

set_option maxRecDepth 100000 in
/-- C11: for every 32-bit address `a` and whatever flags, length modifiers,
width and precision stand between `%` and the letter, `%P` emits exactly 10
characters, `0`, `x` and the 8 hexadecimal digits of `a` padded with zeros
to 8 places, most significant first, and returns 10; with `%p` the letters
of the digits are lower case.  (The bytes of the pointer are taken as the
source comments them: `byte[0]` least significant, `byte[3]` most.) -/
theorem pointer_conversion (a : Nat) (pre : List Nat) (ap : List Arg)
    (ha : a < 4294967296) (hpre : ∀ c ∈ pre, is_spec_char c = true) :
    _print_format (37 :: (pre ++ [80])) (Arg.ptr a :: ap) =
      some (ap, { chars := 48 :: 120 :: (hex8_digits a).map hex_upper,
                  charsOutputted := 10 }) ∧
    _print_format (37 :: (pre ++ [112])) (Arg.ptr a :: ap) =
      some (ap, { chars := 48 :: 120 :: (hex8_digits a).map hex_lower,
                  charsOutputted := 10 }) ∧
    ((hex8_digits a).length = 8 ∧ (∀ d ∈ hex8_digits a, d < 16) ∧
      parse_digits 16 (hex8_digits a) = a) ∧
    _print_format (bytes "%P") [Arg.ptr 0xBEEF] =
      some ([], { chars := bytes "0x0000BEEF", charsOutputted := 10 }) ∧
    _print_format (bytes "%p") [Arg.ptr 0xDEADBEEF] =
      some ([], { chars := bytes "0xdeadbeef", charsOutputted := 10 }) ∧
    _print_format (bytes "%-+ 012.5LP") [Arg.ptr 0xDEADBEEF] =
      some ([], { chars := bytes "0xDEADBEEF", charsOutputted := 10 }) := by
  obtain ⟨hP, hp⟩ := format_loop_pointer pre [0] a ap { chars := [], charsOutputted := 0 }
    hpre
  have hmod : a % 4294967296 = a := Nat.mod_eq_of_lt ha
  have e1 : (37 :: (pre ++ [80])) ++ [0] = 37 :: (pre ++ 80 :: [0]) := by simp
  have e2 : (37 :: (pre ++ [112])) ++ [0] = 37 :: (pre ++ 112 :: [0]) := by simp
  refine ⟨?_, ?_, hex8_digits_spec a ha, by decide, by decide, by decide⟩
  · unfold _print_format
    rw [e1, hP, print_pointer_eq, hmod, (hex8_chars a).1]
    simp [format_loop, emit, hex8_digits]
  · unfold _print_format
    rw [e2, hp, print_pointer_eq, hmod, (hex8_chars a).2]
    simp [format_loop, emit, hex8_digits]

set_option maxRecDepth 100000 in
/-- C11 at the address `0xDEADBEEF` with the specification `%-+ 012.5LP`. -/
theorem pointer_conversion_witness :
    (3735928559 < 4294967296 ∧ ∀ c ∈ bytes "-+ 012.5L", is_spec_char c = true) ∧
    (_print_format (37 :: (bytes "-+ 012.5L" ++ [80])) (Arg.ptr 3735928559 :: []) =
      some ([], { chars := 48 :: 120 :: (hex8_digits 3735928559).map hex_upper,
                  charsOutputted := 10 }) ∧
    _print_format (37 :: (bytes "-+ 012.5L" ++ [112])) (Arg.ptr 3735928559 :: []) =
      some ([], { chars := 48 :: 120 :: (hex8_digits 3735928559).map hex_lower,
                  charsOutputted := 10 }) ∧
    ((hex8_digits 3735928559).length = 8 ∧ (∀ d ∈ hex8_digits 3735928559, d < 16) ∧
      parse_digits 16 (hex8_digits 3735928559) = 3735928559) ∧
    _print_format (bytes "%P") [Arg.ptr 0xBEEF] =
      some ([], { chars := bytes "0x0000BEEF", charsOutputted := 10 }) ∧
    _print_format (bytes "%p") [Arg.ptr 0xDEADBEEF] =
      some ([], { chars := bytes "0xdeadbeef", charsOutputted := 10 }) ∧
    _print_format (bytes "%-+ 012.5LP") [Arg.ptr 0xDEADBEEF] =
      some ([], { chars := bytes "0xDEADBEEF", charsOutputted := 10 })) :=
  ⟨⟨by decide, by decide⟩,
    pointer_conversion 3735928559 (bytes "-+ 012.5L") [] (by decide) (by decide)⟩

set_option maxRecDepth 100000 in
/-- C13: whatever flags, length modifiers, width and precision precede it and
whatever the arguments are, a conversion ending in `F` or `f` emits exactly
the four characters `<%f>` and adds 4 to the count; no argument is read.
`%F` with the argument 3.14 gives `<%f>`. -/
theorem float_placeholder (pre rest : List Nat) (ap : List Arg) (o : Out)
    (hpre : ∀ c ∈ pre, is_spec_char c = true) :
    _print_format (37 :: (pre ++ [70])) ap =
      some (ap, { chars := bytes "<%f>", charsOutputted := 4 }) ∧
    _print_format (37 :: (pre ++ [102])) ap =
      some (ap, { chars := bytes "<%f>", charsOutputted := 4 }) ∧
    format_loop (37 :: (pre ++ 70 :: rest)) none ap o =
      format_loop rest none ap
        { chars := o.chars ++ bytes "<%f>", charsOutputted := o.charsOutputted + 4 } ∧
    format_loop (37 :: (pre ++ 102 :: rest)) none ap o =
      format_loop rest none ap
        { chars := o.chars ++ bytes "<%f>", charsOutputted := o.charsOutputted + 4 } ∧
    _print_format (bytes "%F") [Arg.flt 3.14] =
      some ([Arg.flt 3.14], { chars := bytes "<%f>", charsOutputted := 4 }) ∧
    _print_format (bytes "%-08.3f|") [Arg.flt 3.14] =
      some ([Arg.flt 3.14], { chars := bytes "<%f>|", charsOutputted := 5 }) := by
  obtain ⟨hF, hf⟩ := format_loop_float pre [0] ap { chars := [], charsOutputted := 0 } hpre
  obtain ⟨hF2, hf2⟩ := format_loop_float pre rest ap o hpre
  obtain ⟨hF3, _⟩ := format_loop_float [] [0] [Arg.flt 3.14]
    { chars := [], charsOutputted := 0 } (by simp)
  obtain ⟨_, hf4⟩ := format_loop_float (bytes "-08.3") [124, 0] [Arg.flt 3.14]
    { chars := [], charsOutputted := 0 } (by decide)
  have e1 : (37 :: (pre ++ [70])) ++ [0] = 37 :: (pre ++ 70 :: [0]) := by simp
  have e2 : (37 :: (pre ++ [102])) ++ [0] = 37 :: (pre ++ 102 :: [0]) := by simp
  have hb : bytes "<%f>" = [60, 37, 102, 62] := by decide
  refine ⟨?_, ?_, ?_, ?_, ?_, ?_⟩
  · unfold _print_format
    rw [e1, hF, hb]
    simp [format_loop, emit]
  · unfold _print_format
    rw [e2, hf, hb]
    simp [format_loop, emit]
  · rw [hF2, hb]; rfl
  · rw [hf2, hb]; rfl
  · unfold _print_format
    rw [show bytes "%F" ++ [0] = 37 :: ([] ++ 70 :: [0]) by decide, hF3, hb]
    simp [format_loop, emit]
  · unfold _print_format
    rw [show bytes "%-08.3f|" ++ [0] = 37 :: (bytes "-08.3" ++ 102 :: [124, 0]) by decide,
      hf4]
    simp [format_loop, emit, OUTPUT_CHAR, output_char]
    decide

/-- C13 at the specification `%-08.3f` with the argument 3.14. -/
theorem float_placeholder_witness :
    (∀ c ∈ bytes "-08.3", is_spec_char c = true) ∧
    (_print_format (37 :: (bytes "-08.3" ++ [70])) [Arg.flt 3.14] =
      some ([Arg.flt 3.14], { chars := bytes "<%f>", charsOutputted := 4 }) ∧
    _print_format (37 :: (bytes "-08.3" ++ [102])) [Arg.flt 3.14] =
      some ([Arg.flt 3.14], { chars := bytes "<%f>", charsOutputted := 4 }) ∧
    format_loop (37 :: (bytes "-08.3" ++ 70 :: [0])) none [Arg.flt 3.14]
        { chars := [], charsOutputted := 0 } =
      format_loop [0] none [Arg.flt 3.14]
        { chars := [] ++ bytes "<%f>", charsOutputted := 0 + 4 } ∧
    format_loop (37 :: (bytes "-08.3" ++ 102 :: [0])) none [Arg.flt 3.14]
        { chars := [], charsOutputted := 0 } =
      format_loop [0] none [Arg.flt 3.14]
        { chars := [] ++ bytes "<%f>", charsOutputted := 0 + 4 } ∧
    _print_format (bytes "%F") [Arg.flt 3.14] =
      some ([Arg.flt 3.14], { chars := bytes "<%f>", charsOutputted := 4 }) ∧
    _print_format (bytes "%-08.3f|") [Arg.flt 3.14] =
      some ([Arg.flt 3.14], { chars := bytes "<%f>|", charsOutputted := 5 })) :=
  ⟨by decide,
    float_placeholder (bytes "-08.3") [0] [Arg.flt 3.14]
      { chars := [], charsOutputted := 0 } (by decide)⟩

/-! ## The literal `%%` -/

/-- A template that returns has been read up to its terminator in the main
loop; followed by more text, the loop goes on from the same state. -/
theorem format_loop_prefix_run : ∀ (pre rest : List Nat) (m : Option Conv)
    (ap : List Arg) (o : Out) (r : List Arg × Out), 0 ∉ pre →
    format_loop (pre ++ [0]) m ap o = some r →
    format_loop (pre ++ rest) m ap o = format_loop rest none r.1 r.2 := by
  intro pre
  induction pre with
  | nil =>
    intro rest m ap o r _ h
    cases m with
    | none =>
      simp only [List.nil_append, format_loop, if_true, Option.some.injEq] at h
      rw [← h]
      rfl
    | some cv =>
      simp only [List.nil_append, format_loop] at h
      split at h
      · exact absurd h (by simp)
      · exact absurd h (by simp)
  | cons c pre ih =>
    intro rest m ap o r h0 h
    simp only [List.mem_cons, not_or] at h0
    have hc0 : c ≠ 0 := fun e => h0.1 e.symm
    cases m with
    | none =>
      simp only [List.cons_append, format_loop, hc0, if_false] at h ⊢
      by_cases h37 : c = 37
      · rw [if_pos h37] at h ⊢
        exact ih rest _ ap o r h0.2 h
      · rw [if_neg h37] at h ⊢
        exact ih rest _ ap _ r h0.2 h
    | some cv =>
      simp only [List.cons_append, format_loop] at h ⊢
      cases hg : get_conversion_spec c cv ap o with
      | none => rw [hg] at h; exact absurd h (by simp)
      | some x =>
        obtain ⟨m2, ap2, o2⟩ := x
        rw [hg] at h
        simp only at h ⊢
        exact ih rest m2 ap2 o2 r h0.2 h

set_option maxRecDepth 100000 in
/-- C12: the template `%%` emits the single character `%`, returns 1 and
consumes no argument.  After any template `pre` that returns, `%%` adds exactly
one `%` to what `pre` emitted and leaves the argument cursor where `pre` left
it, and the rest of the template is read from there. -/
theorem double_percent (pre post : List Nat) (ap ap1 : List Arg) (o1 : Out)
    (hnul : 0 ∉ pre) (hpre : _print_format pre ap = some (ap1, o1)) :
    _print_format (bytes "%%") ap = some (ap, { chars := [37], charsOutputted := 1 }) ∧
    _print_format (pre ++ bytes "%%") ap =
      some (ap1, { chars := o1.chars ++ [37], charsOutputted := o1.charsOutputted + 1 }) ∧
    _print_format (pre ++ bytes "%%" ++ post) ap =
      format_loop (post ++ [0]) none ap1
        { chars := o1.chars ++ [37], charsOutputted := o1.charsOutputted + 1 } ∧
    _print_format (pre ++ post) ap = format_loop (post ++ [0]) none ap1 o1 ∧
    _print_format (bytes "a%%b%%") [] =
      some ([], { chars := bytes "a%b%", charsOutputted := 4 }) ∧
    _print_format (bytes "%%%D") [Arg.int 5] =
      some ([], { chars := bytes "%5", charsOutputted := 2 }) := by
  have hb : bytes "%%" = [37, 37] := by decide
  have h37 : (37 : Nat) ≠ 0 := by decide
  have hg : ∀ (cv : Conv) (a : List Arg) (o : Out),
      get_conversion_spec 37 cv a o = some (none, a, OUTPUT_CHAR 37 o) := by
    intro cv a o; rfl
  unfold _print_format at hpre ⊢
  have run := fun rest => format_loop_prefix_run pre rest none ap
    { chars := [], charsOutputted := 0 } (ap1, o1) hnul hpre
  refine ⟨?_, ?_, ?_, ?_, by decide, by decide⟩
  · rw [hb]
    simp [format_loop, hg, OUTPUT_CHAR, output_char]
  · rw [hb, List.append_assoc, run]
    simp [format_loop, hg, OUTPUT_CHAR, output_char]
  · rw [hb, List.append_assoc, List.append_assoc, run]
    simp [format_loop, hg, OUTPUT_CHAR, output_char]
  · rw [List.append_assoc, run]

set_option maxRecDepth 100000 in
/-- C12 after the template `%D=` with the arguments 7 and 8. -/
theorem double_percent_witness :
    (0 ∉ bytes "%D=" ∧
      _print_format (bytes "%D=") [Arg.int 7, Arg.int 8] =
        some ([Arg.int 8], { chars := bytes "7=", charsOutputted := 2 })) ∧
    (_print_format (bytes "%%") [Arg.int 7, Arg.int 8] =
      some ([Arg.int 7, Arg.int 8], { chars := [37], charsOutputted := 1 }) ∧
    _print_format (bytes "%D=" ++ bytes "%%") [Arg.int 7, Arg.int 8] =
      some ([Arg.int 8], { chars := (bytes "7=") ++ [37], charsOutputted := 2 + 1 }) ∧
    _print_format (bytes "%D=" ++ bytes "%%" ++ bytes "%D") [Arg.int 7, Arg.int 8] =
      format_loop (bytes "%D" ++ [0]) none [Arg.int 8]
        { chars := (bytes "7=") ++ [37], charsOutputted := 2 + 1 } ∧
    _print_format (bytes "%D=" ++ bytes "%D") [Arg.int 7, Arg.int 8] =
      format_loop (bytes "%D" ++ [0]) none [Arg.int 8]
        { chars := bytes "7=", charsOutputted := 2 } ∧
    _print_format (bytes "a%%b%%") [] =
      some ([], { chars := bytes "a%b%", charsOutputted := 4 }) ∧
    _print_format (bytes "%%%D") [Arg.int 5] =
      some ([], { chars := bytes "%5", charsOutputted := 2 })) :=
  ⟨⟨by decide, by decide⟩,
    double_percent (bytes "%D=") (bytes "%D") [Arg.int 7, Arg.int 8] [Arg.int 8]
      { chars := bytes "7=", charsOutputted := 2 } (by decide) (by decide)⟩

/-! ## Characters that are no conversion letter -/

/-- A character after `%` that is no digit, dot, `%`, flag, length modifier or
conversion letter, and no lower case letter, is emitted as it is. -/
theorem unknown_char_passthrough (c : Nat) (ap : List Arg)
    (hpc : c ≠ 37) (hdig : isdigit c = false) (hdot : c ≠ 46) (hlow : islower c = false)
    (hset : c ∉ [45, 43, 32, 66, 72, 74, 84, 90, 76, 67, 83, 80, 68, 73, 79, 85, 88, 70]) :
    _print_format [37, c] ap = some (ap, { chars := [c], charsOutputted := 1 }) := by
  simp only [List.mem_cons, List.mem_singleton, List.not_mem_nil, or_false, not_or] at hset
  obtain ⟨h1, h2, h3, h4, h5, h6, h7, h8, h9, h10, h11, h12, h13, h14, h15, h16, h17,
    h18⟩ := hset
  have hsw : switch_c c false Conv.init ap { chars := [], charsOutputted := 0 } =
      finish Conv.init false ap (OUTPUT_CHAR c { chars := [], charsOutputted := 0 }) := by
    unfold switch_c
    rw [if_neg h1, if_neg h2, if_neg h3, if_neg h4,
      if_neg (by rintro (h | h | h | h) <;> contradiction), if_neg h9, if_neg h10,
      if_neg h11, if_neg h12, if_neg (by rintro (h | h) <;> contradiction),
      if_neg h15, if_neg h16, if_neg h17, if_neg h18]
  have hg : get_conversion_spec c Conv.init ap { chars := [], charsOutputted := 0 } =
      finish Conv.init false ap (OUTPUT_CHAR c { chars := [], charsOutputted := 0 }) := by
    unfold get_conversion_spec
    rw [if_neg hpc, hdig, hlow, if_neg (by simp), if_neg hdot, if_neg (by simp)]
    exact hsw
  have h37 : (37 : Nat) ≠ 0 := by decide
  unfold _print_format
  simp only [List.cons_append, List.nil_append, format_loop, h37, if_false, if_true, hg]
  simp [finish, after_switch, Conv.init, format_loop, OUTPUT_CHAR, output_char]

set_option maxRecDepth 100000 in
/-- C14, the code at the failing inputs: `%k` delivers `K`, not `k`; each of
the eleven lower case letters that are neither length modifier nor conversion
letter (`a e g k m n q r v w y`) is delivered in upper case.  Characters
that are not lower case letters pass unchanged (`%!`, `%K`). -/
theorem unknown_lower_case_letter_is_upper_cased :
    _print_format (bytes "%k") [] =
      some ([], { chars := bytes "K", charsOutputted := 1 }) ∧
    ¬ (_print_format (bytes "%k") [] =
      some ([], { chars := bytes "k", charsOutputted := 1 })) ∧
    [97, 101, 103, 107, 109, 110, 113, 114, 118, 119, 121].all (fun c =>
      decide (_print_format [37, c] [] =
        some ([], { chars := [c - 32], charsOutputted := 1 }))) = true ∧
    _print_format (bytes "%!") [] =
      some ([], { chars := bytes "!", charsOutputted := 1 }) ∧
    _print_format (bytes "%K") [] =
      some ([], { chars := bytes "K", charsOutputted := 1 }) := by
  decide

/-! ## Zero padding and the wrap of the width -/

set_option maxRecDepth 100000 in
/-- C15, the code at the failing input: in the width `2565` the digit `6`
takes `width` from 25 to 256 mod 256 = 0, and the test `width == 0` then sets
`zero_padding` although the first digit is `2`; the last digit makes the width
5, so `%2565D` of 42 is padded with zeros where `%5D` is padded with
spaces. -/
theorem width_wrap_sets_zero_padding :
    get_conversion_spec 54 { Conv.init with width := 25 } []
        { chars := [], charsOutputted := 0 } =
      some (some { Conv.init with width := 0, zero_padding := true }, [],
        { chars := [], charsOutputted := 0 }) ∧
    width_after (0, false) (bytes "2565") = (5, true) ∧
    _print_format (bytes "%2565D") [Arg.int 42] =
      some ([], { chars := bytes "00042", charsOutputted := 5 }) ∧
    _print_format (bytes "%5D") [Arg.int 42] =
      some ([], { chars := bytes "   42", charsOutputted := 5 }) ∧
    _print_format (bytes "%05D") [Arg.int 42] =
      some ([], { chars := bytes "00042", charsOutputted := 5 }) := by
  decide


end PrintFormat
